/-
Verification of the SQL→DQL translator and result mapper of the
ditto-drizzle-driver repository.

The repository ships the session/prepared-query classes, the error classes
and an extensive unit-test suite, but the file `src/utils/sqlToDql.ts`
holding `sqlToDql` and `mapDqlResultToSql` is not present in the source
tree (only its tests and call sites are).  Those two functions are
therefore modelled from the specification; everything embedded from
`DittoSQLiteSession.ts` (the aggregate-row mapper of
`DittoSQLitePreparedQuery.values` and the LIMIT handling of
`DittoSQLitePreparedQuery.get`) follows the TypeScript source directly.

Strings are embedded as `List Char` so that every operation is a plain
structural recursion the kernel can evaluate.
-/
import Mathlib

namespace DittoDql

/-- Character lists stand in for JavaScript strings. -/
abbrev Chars := List Char

/-- A SQL parameter value: null, boolean, integer or string
(the driver's tests exercise exactly these shapes). -/
inductive Value where
  | vNull : Value
  | vBool : Bool → Value
  | vInt : Int → Value
  | vStr : String → Value
deriving DecidableEq, Repr

/-- A value bound in the translated argument map: either a plain parameter
or an INSERT document payload (an insertion-ordered field map). -/
inductive ArgValue where
  | prim : Value → ArgValue
  | doc : List (Chars × Value) → ArgValue
deriving DecidableEq, Repr

/-- The translation output: DQL query text plus an optional named-argument
map (`args` is `none` when the original statement carried no payload). -/
structure TranslationResult where
  query : Chars
  args : Option (List (Chars × ArgValue))
deriving DecidableEq, Repr

/-- Error taxonomy of the translator: permanently unsupported operations
(class `DittoUnsupportedOperationError`) and structurally malformed
statements of a supported kind. -/
inductive DqlError where
  | unsupportedOperation : String → DqlError
  | malformedStatement : String → DqlError
deriving DecidableEq, Repr

/-- Statement kinds assigned by inspecting the leading keywords. -/
inductive StatementKind where
  | select | insert | update | delete
  | createIndex | createUniqueIndex | dropIndex
  | unsupported
deriving DecidableEq, Repr

/-- Characters that may appear in an unquoted SQL identifier. -/
def isIdentChar (c : Char) : Bool := c.isAlphanum || c = '_'

/-- Identifier characters extended with `.` for nested field paths. -/
def isIdentDotChar (c : Char) : Bool := isIdentChar c || c = '.'

/-- Drop leading whitespace. -/
def dropWs (s : Chars) : Chars := s.dropWhile Char.isWhitespace

/-- The first whitespace-delimited token of `s`. -/
def takeTok (s : Chars) : Chars := (dropWs s).takeWhile (fun c => !c.isWhitespace)

/-- What remains of `s` after its first whitespace-delimited token. -/
def restTok (s : Chars) : Chars := (dropWs s).dropWhile (fun c => !c.isWhitespace)

/-- Uppercase every character (keyword normalisation). -/
def upper (s : Chars) : Chars := s.map Char.toUpper

/-- Drop trailing whitespace. -/
def dropTrailWs (s : Chars) : Chars := (dropWs s.reverse).reverse

/-- Trim whitespace from both ends. -/
def trimWs (s : Chars) : Chars := dropTrailWs (dropWs s)

/-- Number of `?` placeholders in the statement text. -/
def countQ (s : Chars) : Nat := s.count '?'

/-- Modelled from the spec: identifier quoting is always stripped —
double-quoted identifiers lose their quotes, and string literals never
occur inline (the query-builder parameterizes them), so removing every
`"` character is the whole normalisation. -/
def stripQuotes (s : Chars) : Chars := s.filter (fun c => c ≠ '"')

/-- Decimal digits of a natural number, as characters. -/
def natChars (n : Nat) : Chars := (Nat.repr n).data

/-- The name of the `k`-th positional argument, `argk`. -/
def mkArgName (k : Nat) : Chars := "arg".data ++ natChars k

/-- The synthetic aggregate key `($k)` produced by the store. -/
def aggKey (k : Nat) : Chars := "($".data ++ natChars k ++ ")".data

/-- Test for a synthetic aggregate key, the regex `^\(\$\d+\)$` of
`DittoSQLiteSession.ts`. -/
def isAggregateKey (k : Chars) : Bool :=
  match k with
  | '(' :: '$' :: rest =>
    decide (rest.takeWhile Char.isDigit ≠ []) && rest.dropWhile Char.isDigit = [')']
  | _ => false

/-- Substring test (JavaScript `String.includes`). -/
def containsSub (needle hay : Chars) : Bool :=
  match hay with
  | [] => needle.isEmpty
  | c :: t => needle.isPrefixOf (c :: t) || containsSub needle t

/-- Split on `,` (comma characters never occur inside the identifiers the
translator accepts). -/
def splitComma (s : Chars) : List Chars :=
  match s with
  | [] => [[]]
  | c :: rest =>
    if c = ',' then [] :: splitComma rest
    else
      match splitComma rest with
      | h :: t => (c :: h) :: t
      | [] => [[c]]

/-- Join pieces with `", "` (used to build statement families in claims). -/
def commaSep (xs : List Chars) : Chars :=
  match xs with
  | [] => []
  | [x] => x
  | x :: xs => x ++ ", ".data ++ commaSep xs

/-- Does an identifier run starting here consist of exactly `id`, not
followed by `(`?  (The guard that keeps `MID(...)`, `UserId` and calls
`id(...)` untouched.) -/
def startsExactId (s : Chars) : Bool :=
  match s with
  | c1 :: c2 :: rest =>
    c1 = 'i' && c2 = 'd' &&
      (match rest with
       | [] => true
       | d :: _ => !isIdentChar d && d ≠ '(')
  | _ => false

/-- Modelled from the spec: the reserved-name rewrite — a bare or
qualified column reference that is exactly the identifier `id` becomes
`_id`; occurrences inside longer identifiers or function names are left
alone.  `inRun` records whether the previous character belonged to an
identifier run, so the rewrite only fires at the start of a maximal run. -/
def rewriteIdGo (inRun : Bool) (s : Chars) : Chars :=
  match s with
  | [] => []
  | c :: rest =>
    if inRun then c :: rewriteIdGo (isIdentChar c) rest
    else if isIdentChar c then
      if startsExactId (c :: rest) then '_' :: c :: rewriteIdGo true rest
      else c :: rewriteIdGo true rest
    else c :: rewriteIdGo false rest

/-- The reserved-name rewrite over a whole statement. -/
def rewriteId (s : Chars) : Chars := rewriteIdGo false s

/-- The segments of a statement text between its `?` placeholders. -/
def segsQ (s : Chars) : List Chars :=
  match s with
  | [] => [[]]
  | c :: rest =>
    if c = '?' then [] :: segsQ rest
    else
      match segsQ rest with
      | h :: t => (c :: h) :: t
      | [] => [[c]]

/-- The specification's reading of placeholder replacement: interleave the
segments between the `?` occurrences with `:argk`, `k` counting up from
the given start. -/
def joinNumbered (segs : List Chars) (k : Nat) : Chars :=
  match segs with
  | [] => []
  | [seg] => seg
  | seg :: rest => seg ++ ":arg".data ++ natChars k ++ joinNumbered rest (k + 1)

/-- Modelled from the spec: replace each `?`, left to right, by `:argk`
with `k` starting at the given index and incrementing per occurrence. -/
def replaceQAux (s : Chars) (k : Nat) : Chars :=
  match s with
  | [] => []
  | c :: rest =>
    if c = '?' then ":arg".data ++ natChars k ++ replaceQAux rest (k + 1)
    else c :: replaceQAux rest k

/-- Placeholder replacement over a whole statement, numbering from 1. -/
def replaceQ (s : Chars) : Chars := replaceQAux s 1

/-- Leading keyword pairs that name a two-word operation in diagnostics. -/
def twoWordLeads : List Chars :=
  ["CREATE".data, "ALTER".data, "DROP".data, "TRUNCATE".data,
   "INSERT".data, "DELETE".data]

/-- Modelled from the spec: the normalized keyword reported for an
unsupported statement — the uppercased leading word, extended by the
second word for the two-word DDL/DML heads. -/
def normalizedKeywordL (s : Chars) : Chars :=
  let t1 := upper (takeTok s)
  let t2 := upper (takeTok (restTok s))
  if t1 ∈ twoWordLeads ∧ t2 ≠ [] then t1 ++ ' ' :: t2 else t1

/-- Modelled from the spec: statement classification by the leading
keyword sequence, case-insensitive, total. -/
def classifyL (s : Chars) : StatementKind :=
  let t1 := upper (takeTok s)
  let r1 := restTok s
  let t2 := upper (takeTok r1)
  let t3 := upper (takeTok (restTok r1))
  if t1 = "SELECT".data then .select
  else if t1 = "UPDATE".data then .update
  else if t1 = "INSERT".data ∧ t2 = "INTO".data then .insert
  else if t1 = "DELETE".data ∧ t2 = "FROM".data then .delete
  else if t1 = "CREATE".data ∧ t2 = "UNIQUE".data ∧ t3 = "INDEX".data then .createUniqueIndex
  else if t1 = "CREATE".data ∧ t2 = "INDEX".data then .createIndex
  else if t1 = "DROP".data ∧ t2 = "INDEX".data then .dropIndex
  else .unsupported

/-- The positional argument entries `arg1..argn` zipped with the
parameters (`argk ↦ parameters[k-1]`). -/
def argEntries (params : List Value) (n : Nat) : List (Chars × ArgValue) :=
  (List.range n).map (fun i => (mkArgName (i + 1), ArgValue.prim (params.getD i .vNull)))

/-- Modelled from the spec: the shared SELECT/UPDATE/DELETE path — strip
identifier quotes, rewrite `id` column references, renumber placeholders;
`args` is present exactly when the text holds at least one `?`. -/
def translateGeneric (s : Chars) (params : List Value) : TranslationResult :=
  let n := countQ s
  { query := replaceQ (rewriteId (stripQuotes s)),
    args := if n = 0 then none else some (argEntries params n) }

/-- Rename an INSERT column named `id` to the store's `_id`. -/
def renameIdCol (c : Chars) : Chars := if c = "id".data then "_id".data else c

/-- State of the VALUES-region scanner: `phase` 0 expects `(`, 1 expects
`?`, 2 expects `,` or `)`, 3 sits after a closed tuple; `cur` counts the
placeholders of the open tuple and `acc` the finished tuple sizes. -/
structure PvSt where
  phase : Nat
  cur : Nat
  acc : List Nat
  bad : Bool
deriving DecidableEq, Repr

/-- One character of the VALUES region (whitespace already removed). -/
def pvStep (st : PvSt) (c : Char) : PvSt :=
  if st.bad then st
  else if st.phase = 0 ∧ c = '(' then { st with phase := 1, cur := 0 }
  else if st.phase = 1 ∧ c = '?' then { st with phase := 2, cur := st.cur + 1 }
  else if st.phase = 2 ∧ c = ',' then { st with phase := 1 }
  else if st.phase = 2 ∧ c = ')' then { st with phase := 3, acc := st.acc ++ [st.cur] }
  else if st.phase = 3 ∧ c = ',' then { st with phase := 0 }
  else { st with bad := true }

/-- Modelled from the spec: parse the `VALUES (?, ...)[, (?, ...)]*`
region into the list of per-tuple placeholder counts. -/
def parseVals (region : Chars) : Option (List Nat) :=
  let st := region.foldl pvStep ⟨0, 0, [], false⟩
  if st.bad = false ∧ st.phase = 3 then some st.acc else none

/-- Modelled from the spec: structural parse of
`INSERT INTO <table> (<col1>, ...) VALUES (?, ...)[, (?, ...)]*`
(quotes already stripped).  Yields the table, the column list and the
per-tuple placeholder counts; every count must equal the column count. -/
def parseInsert (s : Chars) : Option (Chars × List Chars × List Nat) :=
  let t1 := takeTok s
  let r1 := restTok s
  let t2 := takeTok r1
  let r2 := restTok r1
  if upper t1 = "INSERT".data ∧ upper t2 = "INTO".data then
    let table := (dropWs r2).takeWhile isIdentChar
    let r3 := (dropWs r2).dropWhile isIdentChar
    if table = [] then none
    else
      match dropWs r3 with
      | '(' :: r5 =>
        let colsStr := r5.takeWhile (fun c => c ≠ ')')
        match r5.dropWhile (fun c => c ≠ ')') with
        | ')' :: r6 =>
          let cols := (splitComma colsStr).map trimWs
          if cols.all (fun c => decide (c ≠ []) && c.all isIdentChar) then
            let r7 := dropWs r6
            if upper (r7.take 6) = "VALUES".data then
              match parseVals ((r7.drop 6).filter (fun c => !c.isWhitespace)) with
              | some counts =>
                if counts.all (fun k => k = cols.length) then some (table, cols, counts)
                else none
              | none => none
            else none
          else none
        | _ => none
      | _ => none
  else none

/-- The `k`-th document slice of a multi-row insert's parameters. -/
def docSlice (cols : List Chars) (params : List Value) (k : Nat) : List (Chars × Value) :=
  (cols.map renameIdCol).zip ((params.drop (k * cols.length)).take cols.length)

/-- The `(:doc1), (:doc2), ...` clause of a multi-row insert. -/
def docRefs (m : Nat) : Chars :=
  commaSep ((List.range m).map (fun i => "(:doc".data ++ natChars (i + 1) ++ ")".data))

/-- Modelled from the spec: the INSERT document builder — zip the column
list (with `id` renamed `_id`) against the positional parameters into one
document per VALUES tuple and emit `INSERT INTO <table> DOCUMENTS (:doc)`
(or `(:doc1), (:doc2), ...`); unmatched structure raises the
`Unable to parse INSERT statement` failure. -/
def translateInsert (s : Chars) (params : List Value) : Except DqlError TranslationResult :=
  match parseInsert s with
  | none => .error (.malformedStatement "Unable to parse INSERT statement")
  | some (table, cols, counts) =>
    if counts.length = 1 then
      .ok { query := "INSERT INTO ".data ++ table ++ " DOCUMENTS (:doc)".data,
            args := some [("doc".data, .doc ((cols.map renameIdCol).zip params))] }
    else
      .ok { query := "INSERT INTO ".data ++ table ++ " DOCUMENTS ".data ++ docRefs counts.length,
            args := some ((List.range counts.length).map
              (fun i => ("doc".data ++ natChars (i + 1), .doc (docSlice cols params i)))) }

/-- The failure every malformed CREATE INDEX shape raises. -/
def ciMalformed : Except DqlError TranslationResult :=
  .error (.malformedStatement "Unable to parse CREATE INDEX")

/-- Modelled from the spec: the column-expression checks of the CREATE
INDEX path — composite lists, partial-index WHERE clauses and
non-identifier column expressions are rejected; the accepted single
column has `id` rewritten to `_id`. -/
def ciAfterParen (ine : Bool) (name tbl colsStr suffix : Chars) :
    Except DqlError TranslationResult :=
  if ',' ∈ colsStr then
    .error (.unsupportedOperation "Unsupported SQL operation: Composite INDEX")
  else if upper (takeTok suffix) = "WHERE".data then
    .error (.unsupportedOperation "Unsupported SQL operation: Partial INDEX")
  else if trimWs colsStr ≠ [] ∧ (trimWs colsStr).all isIdentDotChar ∧ dropWs suffix = [] then
    .ok { query := "CREATE INDEX ".data ++
            (if ine then "IF NOT EXISTS ".data else []) ++
            name ++ " ON ".data ++ tbl ++
            " (".data ++ renameIdCol (trimWs colsStr) ++ ")".data,
          args := none }
  else ciMalformed

/-- Modelled from the spec: locate the parenthesised column expression of
a CREATE INDEX statement. -/
def ciAfterTable (ine : Bool) (name tbl r4 : Chars) : Except DqlError TranslationResult :=
  match dropWs r4 with
  | c :: r5 =>
    if c = '(' then
      match r5.dropWhile (fun c => c ≠ ')') with
      | d :: r6 =>
        if d = ')' then ciAfterParen ine name tbl (r5.takeWhile (fun c => c ≠ ')')) r6
        else ciMalformed
      | [] => ciMalformed
    else ciMalformed
  | [] => ciMalformed

/-- Modelled from the spec: parse `ON <table>` of a CREATE INDEX
statement. -/
def ciAfterName (ine : Bool) (name r3 : Chars) : Except DqlError TranslationResult :=
  if upper (takeTok r3) = "ON".data then
    if (dropWs (restTok r3)).takeWhile isIdentChar ≠ [] then
      ciAfterTable ine name ((dropWs (restTok r3)).takeWhile isIdentChar)
        ((dropWs (restTok r3)).dropWhile isIdentChar)
    else ciMalformed
  else ciMalformed

/-- Modelled from the spec: parse the index name of a CREATE INDEX
statement. -/
def ciBody (ine : Bool) (r2 : Chars) : Except DqlError TranslationResult :=
  if (dropWs r2).takeWhile isIdentChar ≠ [] ∧
      ((dropWs r2).takeWhile isIdentChar).all isIdentChar then
    ciAfterName ine ((dropWs r2).takeWhile isIdentChar) ((dropWs r2).dropWhile isIdentChar)
  else ciMalformed

/-- Modelled from the spec: the CREATE INDEX path (quotes already
stripped) — reject composite, partial and functional indexes, accept the
single-column `CREATE INDEX [IF NOT EXISTS] <name> ON <table> (<col>)`
form with `id` rewritten to `_id` and dotted paths preserved. -/
def translateCreateIndex (s : Chars) : Except DqlError TranslationResult :=
  if upper (takeTok s) = "CREATE".data ∧ upper (takeTok (restTok s)) = "INDEX".data then
    if upper (takeTok (restTok (restTok s))) = "IF".data then
      if upper (takeTok (restTok (restTok (restTok s)))) = "NOT".data ∧
          upper (takeTok (restTok (restTok (restTok (restTok s))))) = "EXISTS".data then
        ciBody true (restTok (restTok (restTok (restTok (restTok s)))))
      else ciMalformed
    else ciBody false (restTok (restTok s))
  else ciMalformed

/-- Modelled from the spec: `sqlToDql` of the absent
`src/utils/sqlToDql.ts` — classify by leading keywords, dispatch to the
generic rewrite, the INSERT builder or the index handling, and reject
everything else with `Unsupported SQL operation: <normalized-keyword>`. -/
def sqlToDqlL (s : Chars) (params : List Value) : Except DqlError TranslationResult :=
  match classifyL s with
  | .select => .ok (translateGeneric s params)
  | .update => .ok (translateGeneric s params)
  | .delete => .ok (translateGeneric s params)
  | .insert => translateInsert (stripQuotes s) params
  | .createIndex => translateCreateIndex (stripQuotes s)
  | .createUniqueIndex =>
    .error (.unsupportedOperation "Unsupported SQL operation: UNIQUE INDEX")
  | .dropIndex =>
    .error (.unsupportedOperation "Unsupported SQL operation: DROP INDEX")
  | .unsupported =>
    .error (.unsupportedOperation
      ("Unsupported SQL operation: " ++ String.mk (normalizedKeywordL s)))

/-- `sqlToDql` over ordinary strings. -/
def sqlToDql (sql : String) (params : List Value) : Except DqlError TranslationResult :=
  sqlToDqlL sql.data params

/-- A result document returned by the store. -/
abbrev Doc := List (Chars × Value)

/-- Modelled from the spec: `mapDqlResultToSql` of the absent
`src/utils/sqlToDql.ts` — the reverse identifier mapping applied to each
result document, renaming the store's `_id` field back to `id`. -/
def mapDqlResultToSql (doc : Doc) : Doc :=
  doc.map (fun e => (if e.1 = "_id".data then "id".data else e.1, e.2))

/-- From `DittoSQLitePreparedQuery.values`: the base row of an aggregate
result — every non-aggregate (GROUP BY passthrough) field copied in
document order. -/
def docPlain (doc : Doc) : Doc := doc.filter (fun e => !isAggregateKey e.1)

/-- From `DittoSQLitePreparedQuery.values` (lines 215–230 of
`DittoSQLiteSession.ts`): the `forEach` over the requested fields — a
field already present in the accumulating row is skipped, otherwise the
document value at the aggregate key `($k)` (the field's 1-based ordinal)
is bound to the field's name. -/
def mapAggRowGo (doc : Doc) (k : Nat) (fields : List Chars) (acc : Doc) : Doc :=
  match fields with
  | [] => acc
  | f :: fs =>
    mapAggRowGo doc (k + 1) fs
      (if (acc.lookup f).isSome then acc
       else
         match doc.lookup (aggKey k) with
         | some v => acc ++ [(f, v)]
         | none => acc)

/-- From `DittoSQLitePreparedQuery.values` (lines 198–237 of
`DittoSQLiteSession.ts`): copy the GROUP BY passthrough fields, then walk
the requested fields in order and bind each one not yet present to the
document value at `($index+1)`. -/
def mapAggregateRow (fields : List Chars) (doc : Doc) : Doc :=
  mapAggRowGo doc 1 fields (docPlain doc)

/-- From `DittoSQLitePreparedQuery.get`: append ` LIMIT 1` unless the
translated text already contains `LIMIT` case-insensitively. -/
def appendLimitOne (q : Chars) : Chars :=
  if containsSub "LIMIT".data (upper q) then q else q ++ " LIMIT 1".data

/-- From `DittoSQLitePreparedQuery.get`: the query text actually sent to
the store on the no-fields/no-custom-mapper path. -/
def getQueryL (sql : Chars) (params : List Value) : Except DqlError TranslationResult := do
  let r ← sqlToDqlL sql params
  pure { r with query := appendLimitOne r.query }

/-- From `DittoSQLitePreparedQuery.get`: `undefined` on an empty item
list, otherwise the first item's document through the result mapper. -/
def getResult (items : List Doc) : Option Doc :=
  match items with
  | [] => none
  | d :: _ => some (mapDqlResultToSql d)

/-- The claim-side INSERT statement family
`INSERT INTO <table> (<cols>) VALUES (?, ..., ?)`. -/
def mkInsertText (table : Chars) (cols : List Chars) : Chars :=
  "INSERT INTO ".data ++ table ++ " (".data ++ commaSep cols ++
  ") VALUES (".data ++ commaSep (cols.map (fun _ => ['?'])) ++ ")".data

/-- The claim-side CREATE INDEX statement family
`CREATE INDEX <name> ON <table> (<inner>)`. -/
def mkCreateIndexText (name table inner : Chars) : Chars :=
  "CREATE INDEX ".data ++ name ++ " ON ".data ++ table ++ " (".data ++ inner ++ ")".data

/-! ### Character-class facts -/

theorem not_ws_of_ident {c : Char} (h : isIdentChar c = true) : c.isWhitespace = false := by
  by_contra hw
  have hw' : c.isWhitespace = true := by revert hw; cases c.isWhitespace <;> simp
  have : ((c = ' ' ∨ c = '\t') ∨ c = '\x0d') ∨ c = '\n' := by
    simpa [Char.isWhitespace] using hw'
  rcases this with ((rfl | rfl) | rfl) | rfl <;> revert h <;> decide

theorem ne_of_ident {c d : Char} (h : isIdentChar c = true) (hd : isIdentChar d = false) :
    c ≠ d := by
  rintro rfl; rw [h] at hd; cases hd

theorem not_ws_of_identDot {c : Char} (h : isIdentDotChar c = true) : c.isWhitespace = false := by
  have h' : isIdentChar c = true ∨ c = '.' := by simpa [isIdentDotChar] using h
  rcases h' with h1 | rfl
  · exact not_ws_of_ident h1
  · decide

/-! ### takeWhile / dropWhile over appends -/

theorem takeWhile_append_all {p : Char → Bool} {a : Chars} (b : Chars)
    (h : ∀ c ∈ a, p c = true) : (a ++ b).takeWhile p = a ++ b.takeWhile p := by
  induction a with
  | nil => simp
  | cons c t ih =>
    simp only [List.cons_append, List.takeWhile_cons, h c (by simp), if_true, ih
      (fun d hd => h d (by simp [hd]))]

theorem dropWhile_append_all {p : Char → Bool} {a : Chars} (b : Chars)
    (h : ∀ c ∈ a, p c = true) : (a ++ b).dropWhile p = b.dropWhile p := by
  induction a with
  | nil => simp
  | cons c t ih =>
    simp only [List.cons_append, List.dropWhile_cons, h c (by simp), if_true, ih
      (fun d hd => h d (by simp [hd]))]

theorem takeWhile_eq_self_of_all {p : Char → Bool} {a : Chars}
    (h : ∀ c ∈ a, p c = true) : a.takeWhile p = a := by
  have := @takeWhile_append_all p a [] h
  simpa using this

theorem dropWhile_eq_nil_of_all {p : Char → Bool} {a : Chars}
    (h : ∀ c ∈ a, p c = true) : a.dropWhile p = [] := by
  have := @dropWhile_append_all p a [] h
  simpa using this

/-! ### Placeholder counting -/

theorem countQ_append (a b : Chars) : countQ (a ++ b) = countQ a + countQ b := by
  simp [countQ, List.count_append]

theorem countQ_eq_zero_of_all {a : Chars} (h : ∀ c ∈ a, c ≠ '?') : countQ a = 0 := by
  simp only [countQ]
  exact List.count_eq_zero.mpr (fun hmem => (h _ hmem) rfl)

theorem countQ_takeWhile_ws (s : Chars) : countQ (s.takeWhile Char.isWhitespace) = 0 := by
  refine countQ_eq_zero_of_all (fun c hc => ?_)
  have := List.mem_takeWhile_imp hc
  rintro rfl
  exact absurd this (by decide)

theorem countQ_dropWs (s : Chars) : countQ (dropWs s) = countQ s := by
  conv_rhs => rw [← @List.takeWhile_append_dropWhile _ Char.isWhitespace s]
  rw [countQ_append, countQ_takeWhile_ws, Nat.zero_add, dropWs]

theorem countQ_split_tok (s : Chars) : countQ s = countQ (takeTok s) + countQ (restTok s) := by
  rw [takeTok, restTok, ← countQ_append, List.takeWhile_append_dropWhile, countQ_dropWs]

theorem countQ_split_ident (s : Chars) :
    countQ s = countQ ((dropWs s).takeWhile isIdentChar) +
      countQ ((dropWs s).dropWhile isIdentChar) := by
  rw [← countQ_append, List.takeWhile_append_dropWhile, countQ_dropWs]

theorem countQ_eq_zero_of_upper {tok : Chars} {w : String} (h : upper tok = w.data)
    (hw : '?' ∉ w.data) : countQ tok = 0 := by
  refine countQ_eq_zero_of_all (fun c hc => ?_)
  rintro rfl
  exact hw (h ▸ List.mem_map_of_mem Char.toUpper hc)

theorem countQ_eq_zero_of_ident {tok : Chars} (h : ∀ c ∈ tok, isIdentChar c = true) :
    countQ tok = 0 :=
  countQ_eq_zero_of_all (fun c hc => ne_of_ident (h c hc) (by decide))

theorem countQ_eq_zero_of_identDot {tok : Chars} (h : ∀ c ∈ tok, isIdentDotChar c = true) :
    countQ tok = 0 := by
  refine countQ_eq_zero_of_all (fun c hc => ?_)
  rintro rfl
  exact absurd (h _ hc) (by decide)

theorem countQ_reverse (s : Chars) : countQ s.reverse = countQ s := by
  simp [countQ, List.count_reverse]

theorem countQ_dropTrailWs (s : Chars) : countQ (dropTrailWs s) = countQ s := by
  rw [dropTrailWs, countQ_reverse, countQ_dropWs, countQ_reverse]

theorem countQ_trimWs (s : Chars) : countQ (trimWs s) = countQ s := by
  rw [trimWs, countQ_dropTrailWs, countQ_dropWs]

theorem countQ_stripQuotes (s : Chars) : countQ (stripQuotes s) = countQ s := by
  induction s with
  | nil => rfl
  | cons c t ih =>
    by_cases hc : c = '"'
    · subst hc
      have h1 : stripQuotes ('"' :: t) = stripQuotes t := by
        simp [stripQuotes, List.filter]
      have h2 : countQ ('"' :: t) = countQ t := by
        simp [countQ, List.count_cons]
      rw [h1, h2, ih]
    · have hdec : (decide (c ≠ '"')) = true := by simpa using hc
      have h1 : stripQuotes (c :: t) = c :: stripQuotes t := by
        simp [stripQuotes, List.filter, hdec]
      rw [h1]
      simp only [countQ, List.count_cons] at ih ⊢
      omega

/-! ### Placeholder replacement refines the split/interleave reading -/

theorem segsQ_ne_nil (s : Chars) : segsQ s ≠ [] := by
  induction s with
  | nil => simp [segsQ]
  | cons c t ih =>
    simp only [segsQ]
    split
    · simp
    · rcases hs : segsQ t with _ | ⟨h, r⟩
      · exact absurd hs ih
      · simp

theorem replaceQAux_eq_joinNumbered (s : Chars) (k : Nat) :
    replaceQAux s k = joinNumbered (segsQ s) k := by
  induction s generalizing k with
  | nil => rfl
  | cons c t ih =>
    by_cases hc : c = '?'
    · subst hc
      have h1 : replaceQAux ('?' :: t) k =
          ":arg".data ++ natChars k ++ replaceQAux t (k + 1) := by
        simp [replaceQAux]
      have h2 : segsQ ('?' :: t) = [] :: segsQ t := by simp [segsQ]
      rw [h1, h2]
      rcases hs : segsQ t with _ | ⟨h, r⟩
      · exact absurd hs (segsQ_ne_nil t)
      · simp only [joinNumbered, List.nil_append]
        rw [ih, hs]
    · have h1 : replaceQAux (c :: t) k = c :: replaceQAux t k := by
        simp [replaceQAux, hc]
      rcases hs : segsQ t with _ | ⟨h, r⟩
      · exact absurd hs (segsQ_ne_nil t)
      · have h2 : segsQ (c :: t) = (c :: h) :: r := by
          simp only [segsQ, if_neg hc, hs]
        rw [h1, h2, ih, hs]
        rcases r with _ | ⟨h2', r2⟩
        · simp [joinNumbered]
        · simp [joinNumbered]

theorem length_segsQ (s : Chars) : (segsQ s).length = countQ s + 1 := by
  induction s with
  | nil => simp [segsQ, countQ]
  | cons c t ih =>
    by_cases hc : c = '?'
    · subst hc
      have h2 : segsQ ('?' :: t) = [] :: segsQ t := by simp [segsQ]
      rw [h2]
      simp only [List.length_cons, ih]
      simp [countQ, List.count_cons]
    · rcases hs : segsQ t with _ | ⟨h, r⟩
      · exact absurd hs (segsQ_ne_nil t)
      · have h2 : segsQ (c :: t) = (c :: h) :: r := by
          simp only [segsQ, if_neg hc, hs]
        rw [h2]
        rw [hs] at ih
        simp only [List.length_cons] at ih ⊢
        have : countQ (c :: t) = countQ t := by
          simp [countQ, List.count_cons, hc]
        rw [this, ← ih]

/-! ### The id rewrite preserves placeholder structure -/

theorem countQ_rewriteIdGo (b : Bool) (s : Chars) :
    countQ (rewriteIdGo b s) = countQ s := by
  induction s generalizing b with
  | nil => rfl
  | cons c t ih =>
    simp only [rewriteIdGo]
    by_cases hb : b
    · subst hb
      simp only [if_pos trivial, countQ, List.count_cons] at ih ⊢
      rw [show (rewriteIdGo (isIdentChar c) t).count '?' = t.count '?' from ih _]
    · simp only [Bool.eq_false_iff] at hb
      simp only [hb, Bool.false_eq_true, if_false]
      by_cases hid : isIdentChar c = true
      · simp only [hid, if_true]
        by_cases hse : startsExactId (c :: t) = true
        · simp only [hse, if_true]
          have hc : c ≠ '?' := ne_of_ident hid (by decide)
          simp only [countQ, List.count_cons] at ih ⊢
          rw [show (rewriteIdGo true t).count '?' = t.count '?' from ih _]
          simp [hc]
        · simp only [Bool.eq_false_iff] at hse
          simp only [hse, Bool.false_eq_true, if_false, countQ, List.count_cons] at ih ⊢
          rw [show (rewriteIdGo true t).count '?' = t.count '?' from ih _]
      · simp only [Bool.eq_false_iff] at hid
        simp only [hid, Bool.false_eq_true, if_false, countQ, List.count_cons] at ih ⊢
        rw [show (rewriteIdGo false t).count '?' = t.count '?' from ih _]

theorem countQ_rewriteId (s : Chars) : countQ (rewriteId s) = countQ s :=
  countQ_rewriteIdGo false s

/-! ### Boundary behaviour of the id rewrite (claim C3's substance) -/

theorem rewriteIdGo_flag_head (post : Chars)
    (h : ∀ c, post.head? = some c → isIdentChar c = false) :
    rewriteIdGo true post = rewriteIdGo false post := by
  cases post with
  | nil => rfl
  | cons c rest =>
    have hc := h c rfl
    simp [rewriteIdGo, hc]

theorem rewriteIdGo_true_run (run z : Chars) (h : ∀ c ∈ run, isIdentChar c = true) :
    rewriteIdGo true (run ++ z) = run ++ rewriteIdGo true z := by
  induction run with
  | nil => rfl
  | cons c t ih =>
    simp only [List.cons_append, rewriteIdGo, if_pos trivial, h c (by simp), List.append_eq]
    rw [ih (fun d hd => h d (by simp [hd]))]

theorem rewriteIdGo_step_true (c : Char) (rest : Chars) :
    rewriteIdGo true (c :: rest) = c :: rewriteIdGo (isIdentChar c) rest := by
  simp [rewriteIdGo]

theorem rewriteIdGo_step_false_nonident {c : Char} (rest : Chars)
    (hc : isIdentChar c = false) :
    rewriteIdGo false (c :: rest) = c :: rewriteIdGo false rest := by
  simp [rewriteIdGo, hc]

theorem rewriteIdGo_step_false_ident_se {c : Char} (rest : Chars)
    (hc : isIdentChar c = true) (hse : startsExactId (c :: rest) = true) :
    rewriteIdGo false (c :: rest) = '_' :: c :: rewriteIdGo true rest := by
  simp [rewriteIdGo, hc, hse]

theorem rewriteIdGo_step_false_ident_nse {c : Char} (rest : Chars)
    (hc : isIdentChar c = true) (hse : startsExactId (c :: rest) = false) :
    rewriteIdGo false (c :: rest) = c :: rewriteIdGo true rest := by
  simp [rewriteIdGo, hc, hse]

theorem startsExactId_append_of_boundary (c : Char) (a z : Chars) (ha : a ≠ [])
    (hlast : ∀ d, a.getLast? = some d → isIdentChar d = false) :
    startsExactId (c :: a ++ z) = startsExactId (c :: a) := by
  rcases a with _ | ⟨x, a'⟩
  · exact absurd rfl ha
  rcases a' with _ | ⟨y, a2⟩
  · by_cases hcx : c = 'i' ∧ x = 'd'
    · obtain ⟨rfl, rfl⟩ := hcx
      exact absurd (hlast 'd' rfl) (by decide)
    · rcases not_and_or.mp hcx with h1 | h1
      · cases z <;> simp [startsExactId, h1]
      · cases z <;> simp [startsExactId, h1]
  · rfl

theorem rewriteIdGo_append_boundary (a z : Chars) (b : Bool) (ha : a ≠ [])
    (hlast : ∀ d, a.getLast? = some d → isIdentChar d = false) :
    rewriteIdGo b (a ++ z) = rewriteIdGo b a ++ rewriteIdGo false z := by
  induction a generalizing b with
  | nil => exact absurd rfl ha
  | cons c t ih =>
    rcases t with _ | ⟨x, t'⟩
    · have hc := hlast c rfl
      cases b with
      | true => simp [rewriteIdGo, hc]
      | false => simp [rewriteIdGo, hc]
    · have hlast' : ∀ d, (x :: t').getLast? = some d → isIdentChar d = false := by
        intro d hd
        exact hlast d (by rw [List.getLast?_cons_cons]; exact hd)
      have ih' := fun b => ih b (by simp) hlast'
      have hassoc : (c :: x :: t') ++ z = c :: ((x :: t') ++ z) := rfl
      rw [hassoc]
      cases b with
      | true =>
        rw [rewriteIdGo_step_true, rewriteIdGo_step_true, ih']
        simp
      | false =>
        by_cases hid : isIdentChar c = true
        · have hse := startsExactId_append_of_boundary c (x :: t') z (by simp) hlast'
          by_cases h2 : startsExactId (c :: x :: t') = true
          · have hse2 : startsExactId (c :: ((x :: t') ++ z)) = true := by
              rw [show c :: ((x :: t') ++ z) = c :: (x :: t') ++ z from rfl, hse]
              exact h2
            rw [rewriteIdGo_step_false_ident_se _ hid hse2,
              rewriteIdGo_step_false_ident_se _ hid h2, ih']
            simp
          · have h2' : startsExactId (c :: x :: t') = false := by
              revert h2; cases startsExactId (c :: x :: t') <;> simp
            have hse2 : startsExactId (c :: ((x :: t') ++ z)) = false := by
              rw [show c :: ((x :: t') ++ z) = c :: (x :: t') ++ z from rfl, hse]
              exact h2'
            rw [rewriteIdGo_step_false_ident_nse _ hid hse2,
              rewriteIdGo_step_false_ident_nse _ hid h2', ih']
            simp
        · have hid' : isIdentChar c = false := by
            revert hid; cases isIdentChar c <;> simp
          rw [rewriteIdGo_step_false_nonident _ hid',
            rewriteIdGo_step_false_nonident _ hid', ih']
          simp

/-- A head condition expressing that `z` does not continue an identifier
run and does not open a function call. -/
def headBoundary (z : Chars) : Prop :=
  ∀ c, z.head? = some c → isIdentChar c = false ∧ c ≠ '('

/-- A column reference that is exactly `id` at a run boundary is rewritten
to `_id`. -/
theorem rewriteId_fires (z : Chars) (hz : headBoundary z) :
    rewriteIdGo false ("id".data ++ z) = "_id".data ++ rewriteIdGo false z := by
  have hse : startsExactId ('i' :: 'd' :: z) = true := by
    cases z with
    | nil => rfl
    | cons w zw =>
      obtain ⟨h1, h2⟩ := hz w rfl
      simp [startsExactId, h1, h2]
  have h1 : rewriteIdGo false ('i' :: 'd' :: z) = '_' :: 'i' :: rewriteIdGo true ('d' :: z) :=
    rewriteIdGo_step_false_ident_se _ (by decide) hse
  rw [show "id".data ++ z = 'i' :: 'd' :: z from rfl, h1, rewriteIdGo_step_true]
  have h2 : rewriteIdGo true z = rewriteIdGo false z := by
    refine rewriteIdGo_flag_head z (fun c hc => ?_)
    exact (hz c hc).1
  rw [show isIdentChar 'd' = true from rfl, h2]
  rfl

/-- An identifier run other than `id` passes through the rewrite
untouched. -/
theorem rewriteId_skips_other_ident (tok z : Chars) (htok : tok ≠ [])
    (hid : ∀ c ∈ tok, isIdentChar c = true) (hne : tok ≠ "id".data)
    (hz : ∀ c, z.head? = some c → isIdentChar c = false) :
    rewriteIdGo false (tok ++ z) = tok ++ rewriteIdGo false z := by
  rcases tok with _ | ⟨c, rest⟩
  · exact absurd rfl htok
  have hcid : isIdentChar c = true := hid c (by simp)
  have hse : startsExactId (c :: (rest ++ z)) = false := by
    rcases rest with _ | ⟨x, rest'⟩
    · cases hzc : z with
      | nil => rfl
      | cons w zw =>
        by_cases hci : c = 'i'
        · subst hci
          by_cases hwd : w = 'd'
          · subst hwd
            exact absurd (hz 'd' (by rw [hzc]; rfl)) (by decide)
          · simp [startsExactId, hwd]
        · simp [startsExactId, hci]
    · by_cases hci : c = 'i'
      · subst hci
        by_cases hxd : x = 'd'
        · subst hxd
          rcases rest' with _ | ⟨y, rest2⟩
          · exact absurd rfl hne
          · have hy : isIdentChar y = true := hid y (by simp)
            simp [startsExactId, hy]
        · simp [startsExactId, hxd]
      · simp [startsExactId, hci]
  have hstep : rewriteIdGo false ((c :: rest) ++ z) = c :: rewriteIdGo true (rest ++ z) := by
    rw [show (c :: rest) ++ z = c :: (rest ++ z) from rfl]
    exact rewriteIdGo_step_false_ident_nse _ hcid hse
  rw [hstep, rewriteIdGo_true_run rest z (fun d hd => hid d (by simp [hd])),
    rewriteIdGo_flag_head z hz]
  rfl

/-- `id` immediately followed by `(` is a function name and is left
untouched. -/
theorem rewriteId_skips_function_name (z : Chars) :
    rewriteIdGo false ("id(".data ++ z) = "id(".data ++ rewriteIdGo false z := by
  have hse : startsExactId ('i' :: 'd' :: '(' :: z) = false := by
    simp [startsExactId]
  have h1 := @rewriteIdGo_step_false_ident_nse 'i' ('d' :: '(' :: z) (by decide) hse
  rw [show "id(".data ++ z = 'i' :: 'd' :: '(' :: z from rfl, h1, rewriteIdGo_step_true,
    show isIdentChar 'd' = true from rfl, rewriteIdGo_step_true,
    show isIdentChar '(' = false from rfl]
  rfl

/-! ### splitComma, commaSep and trimming -/

theorem dropWhile_eq_self_of_head {p : Char → Bool} {a : Chars}
    (h : ∀ c, a.head? = some c → p c = false) : a.dropWhile p = a := by
  cases a with
  | nil => rfl
  | cons c t => simp [List.dropWhile_cons, h c rfl]

theorem splitComma_ne_nil (s : Chars) : splitComma s ≠ [] := by
  cases s with
  | nil => simp [splitComma]
  | cons c t =>
    simp only [splitComma]
    split
    · simp
    · rcases hs : splitComma t with _ | ⟨h, r⟩
      · simp
      · simp

theorem splitComma_no_comma {a : Chars} (h : ∀ c ∈ a, c ≠ ',') : splitComma a = [a] := by
  induction a with
  | nil => rfl
  | cons c t ih =>
    have hc : ¬(c = ',') := h c (by simp)
    simp only [splitComma, if_neg hc, ih (fun d hd => h d (by simp [hd]))]

theorem splitComma_append_comma {a : Chars} (t : Chars) (h : ∀ c ∈ a, c ≠ ',') :
    splitComma (a ++ ',' :: t) = a :: splitComma t := by
  induction a with
  | nil => simp [splitComma]
  | cons c a' ih =>
    have hc : ¬(c = ',') := h c (by simp)
    have ih' := ih (fun d hd => h d (by simp [hd]))
    simp only [List.cons_append, splitComma, if_neg hc, List.append_eq]
    rw [ih']

theorem trimWs_cons_ws {c : Char} (hc : c.isWhitespace = true) (s : Chars) :
    trimWs (c :: s) = trimWs s := by
  simp [trimWs, dropWs, List.dropWhile_cons, hc]

theorem trimWs_eq_self {a : Chars} (h : ∀ c ∈ a, c.isWhitespace = false) : trimWs a = a := by
  have h1 : dropWs a = a := by
    cases a with
    | nil => rfl
    | cons c t => simp [dropWs, List.dropWhile_cons, h c (by simp)]
  have h2 : dropWs a.reverse = a.reverse := by
    cases hr : a.reverse with
    | nil => rfl
    | cons c t =>
      have hc : c ∈ a := by
        have : c ∈ a.reverse := by rw [hr]; simp
        simpa using this
      simp [dropWs, List.dropWhile_cons, h c hc]
  rw [trimWs, h1, dropTrailWs, h2, List.reverse_reverse]

theorem map_trimWs_splitComma_space (s : Chars) :
    (splitComma (' ' :: s)).map trimWs = (splitComma s).map trimWs := by
  rcases hs : splitComma s with _ | ⟨h, t⟩
  · exact absurd hs (splitComma_ne_nil s)
  · have h1 : splitComma (' ' :: s) = (' ' :: h) :: t := by
      simp only [splitComma, if_neg (by decide : ¬(' ' = ',')), hs]
    rw [h1, List.map_cons, trimWs_cons_ws (by decide), ← List.map_cons]

theorem splitComma_commaSep (cols : List Chars) (hne : cols ≠ [])
    (hcl : ∀ col ∈ cols, col ≠ [] ∧ ∀ c ∈ col, isIdentChar c = true) :
    (splitComma (commaSep cols)).map trimWs = cols := by
  induction cols with
  | nil => exact absurd rfl hne
  | cons c0 rest ih =>
    have hc0 := hcl c0 (by simp)
    have hnc : ∀ c ∈ c0, c ≠ ',' :=
      fun c hc => ne_of_ident (hc0.2 c hc) (by decide)
    have hnw : ∀ c ∈ c0, c.isWhitespace = false :=
      fun c hc => not_ws_of_ident (hc0.2 c hc)
    rcases rest with _ | ⟨c1, rest'⟩
    · rw [show commaSep [c0] = c0 from rfl, splitComma_no_comma hnc]
      simp [trimWs_eq_self hnw]
    · have hsep : commaSep (c0 :: c1 :: rest') = c0 ++ ',' :: ' ' :: commaSep (c1 :: rest') := by
        simp [commaSep]
      rw [hsep, splitComma_append_comma _ hnc, List.map_cons, trimWs_eq_self hnw,
        map_trimWs_splitComma_space,
        ih (by simp) (fun col hcol => hcl col (by simp [hcol]))]

/-! ### Token extraction over constructed statements -/

theorem dropWs_of_head {s : Chars} (h : ∀ c, s.head? = some c → c.isWhitespace = false) :
    dropWs s = s :=
  dropWhile_eq_self_of_head h

theorem tok_split_space {w : Chars} (rest : Chars) (hw : w ≠ [])
    (hall : ∀ c ∈ w, c.isWhitespace = false) :
    takeTok (w ++ ' ' :: rest) = w ∧ restTok (w ++ ' ' :: rest) = ' ' :: rest := by
  have hdrop : dropWs (w ++ ' ' :: rest) = w ++ ' ' :: rest := by
    rcases w with _ | ⟨x, w'⟩
    · exact absurd rfl hw
    · refine dropWs_of_head (fun c hc => ?_)
      simp only [List.cons_append, List.head?, Option.some.injEq] at hc
      subst hc
      exact hall x (by simp)
  constructor
  · rw [takeTok, hdrop, takeWhile_append_all _ (fun c hc => by simp [hall c hc])]
    simp
  · rw [restTok, hdrop, dropWhile_append_all _ (fun c hc => by simp [hall c hc])]
    simp

theorem takeTok_cons_ws {c : Char} (hc : c.isWhitespace = true) (s : Chars) :
    takeTok (c :: s) = takeTok s := by
  simp [takeTok, dropWs, List.dropWhile_cons, hc]

theorem restTok_cons_ws {c : Char} (hc : c.isWhitespace = true) (s : Chars) :
    restTok (c :: s) = restTok s := by
  simp [restTok, dropWs, List.dropWhile_cons, hc]

theorem dropWs_cons_ws {c : Char} (hc : c.isWhitespace = true) (s : Chars) :
    dropWs (c :: s) = dropWs s := by
  simp [dropWs, List.dropWhile_cons, hc]

/-- Splitting an identifier token glued to a non-identifier continuation. -/
theorem ident_split {w : Chars} (rest : Chars) (hw : ∀ c ∈ w, isIdentChar c = true)
    (hrest : ∀ c, rest.head? = some c → isIdentChar c = false) :
    (w ++ rest).takeWhile isIdentChar = w ∧ (w ++ rest).dropWhile isIdentChar = rest := by
  constructor
  · rw [takeWhile_append_all _ hw]
    cases rest with
    | nil => simp
    | cons c t => simp [List.takeWhile_cons, hrest c rfl]
  · rw [dropWhile_append_all _ hw]
    exact dropWhile_eq_self_of_head hrest

/-! ### The VALUES-region scanner -/

/-- The whitespace-free image of `(?, ?, ..., ?)`'s interior. -/
def qMarks : Nat → Chars
  | 0 => []
  | 1 => ['?']
  | n + 2 => '?' :: ',' :: qMarks (n + 1)

theorem filter_commaSep_qs (m : Nat) :
    (commaSep (List.replicate m ['?'])).filter (fun c => !c.isWhitespace) = qMarks m := by
  induction m with
  | zero => rfl
  | succ n ih =>
    cases n with
    | zero => rfl
    | succ n' =>
      have h1 : List.replicate (n' + 2) ['?'] = ['?'] :: List.replicate (n' + 1) ['?'] := rfl
      have h2 : commaSep (['?'] :: List.replicate (n' + 1) ['?']) =
          '?' :: ',' :: ' ' :: commaSep (List.replicate (n' + 1) ['?']) := by
        have hne : List.replicate (n' + 1) ['?'] = ['?'] :: List.replicate n' ['?'] := rfl
        rw [hne]
        simp [commaSep]
      have h3 : (('?' :: ',' :: ' ' ::
            commaSep (List.replicate (n' + 1) ['?'])).filter (fun c => !c.isWhitespace)) =
          '?' :: ',' ::
            ((commaSep (List.replicate (n' + 1) ['?'])).filter (fun c => !c.isWhitespace)) := by
        simp [List.filter_cons]
      rw [h1, h2, h3, ih]
      rfl

theorem foldl_pvStep_inner (n cur : Nat) (acc : List Nat) (z : Chars) :
    (qMarks (n + 1) ++ ')' :: z).foldl pvStep ⟨1, cur, acc, false⟩ =
      z.foldl pvStep ⟨3, cur + n + 1, acc ++ [cur + n + 1], false⟩ := by
  induction n generalizing cur with
  | zero =>
    have h1 : pvStep ⟨1, cur, acc, false⟩ '?' = ⟨2, cur + 1, acc, false⟩ := by
      simp [pvStep]
    have h2 : pvStep ⟨2, cur + 1, acc, false⟩ ')' = ⟨3, cur + 1, acc ++ [cur + 1], false⟩ := by
      simp [pvStep]
    simp only [qMarks, List.cons_append, List.nil_append, List.foldl_cons, h1, h2]
  | succ n' ih =>
    have h1 : pvStep ⟨1, cur, acc, false⟩ '?' = ⟨2, cur + 1, acc, false⟩ := by
      simp [pvStep]
    have h2 : pvStep ⟨2, cur + 1, acc, false⟩ ',' = ⟨1, cur + 1, acc, false⟩ := by
      simp [pvStep]
    have hq : qMarks (n' + 2) = '?' :: ',' :: qMarks (n' + 1) := rfl
    rw [hq]
    simp only [List.cons_append, List.foldl_cons, h1, h2]
    rw [ih (cur + 1), show cur + 1 + n' + 1 = cur + (n' + 1) + 1 from by omega]

theorem parseVals_qs (m : Nat) (hm : 0 < m) :
    parseVals ('(' :: (qMarks m ++ [')'])) = some [m] := by
  rcases m with _ | n
  · omega
  · have h0 : pvStep ⟨0, 0, [], false⟩ '(' = ⟨1, 0, [], false⟩ := by
      simp [pvStep]
    simp only [parseVals, List.foldl_cons, h0]
    rw [show (qMarks (n + 1) ++ [')'] : Chars) = qMarks (n + 1) ++ ')' :: [] from rfl,
      foldl_pvStep_inner n 0 [] []]
    simp

/-! ### Classification of constructed statements -/

theorem classifyL_eq_insert {s : Chars} (h1 : upper (takeTok s) = "INSERT".data)
    (h2 : upper (takeTok (restTok s)) = "INTO".data) : classifyL s = .insert := by
  simp +decide [classifyL, h1, h2]

theorem classifyL_eq_createIndex {s : Chars} (h1 : upper (takeTok s) = "CREATE".data)
    (h2 : upper (takeTok (restTok s)) = "INDEX".data) : classifyL s = .createIndex := by
  simp +decide [classifyL, h1, h2]

/-! ### The INSERT statement family -/

theorem mem_commaSep {c : Char} {xs : List Chars} (h : c ∈ commaSep xs) :
    (∃ x ∈ xs, c ∈ x) ∨ c = ',' ∨ c = ' ' := by
  induction xs with
  | nil => simp [commaSep] at h
  | cons x rest ih =>
    rcases rest with _ | ⟨y, rest'⟩
    · exact Or.inl ⟨x, by simp, h⟩
    · rw [show commaSep (x :: y :: rest') = x ++ ", ".data ++ commaSep (y :: rest') from by
        simp [commaSep]] at h
      simp only [List.append_assoc, List.mem_append] at h
      rcases h with h1 | h1 | h1
      · exact Or.inl ⟨x, by simp, h1⟩
      · exact Or.inr (by simpa using h1)
      · rcases ih h1 with ⟨z, hz, hcz⟩ | h2
        · exact Or.inl ⟨z, by simp [hz], hcz⟩
        · exact Or.inr h2

theorem stripQuotes_eq_self {s : Chars} (h : ∀ c ∈ s, c ≠ '"') : stripQuotes s = s :=
  List.filter_eq_self.mpr (fun c hc => by simpa using h c hc)

/-- Well-formedness of an identifier piece. -/
def IsIdent (w : Chars) : Prop := w ≠ [] ∧ ∀ c ∈ w, isIdentChar c = true

theorem no_quote_of_ident {w : Chars} (h : IsIdent w) : ∀ c ∈ w, c ≠ '"' :=
  fun c hc => ne_of_ident (h.2 c hc) (by decide)

theorem stripQuotes_mkInsertText {table : Chars} {cols : List Chars}
    (ht : IsIdent table) (hc : ∀ col ∈ cols, IsIdent col) :
    stripQuotes (mkInsertText table cols) = mkInsertText table cols := by
  refine stripQuotes_eq_self (fun c hmem => ?_)
  simp only [mkInsertText, List.append_assoc, List.mem_append] at hmem
  rcases hmem with h | h | h | h | h | h | h
  · intro hq; subst hq; revert h; decide
  · exact no_quote_of_ident ht c h
  · intro hq; subst hq; revert h; decide
  · rcases mem_commaSep h with ⟨x, hx, hcx⟩ | h2 | h2
    · exact no_quote_of_ident (hc x hx) c hcx
    · subst h2; decide
    · subst h2; decide
  · intro hq; subst hq; revert h; decide
  · rcases mem_commaSep h with ⟨x, hx, hcx⟩ | h2 | h2
    · rcases List.mem_map.mp hx with ⟨col, _, rfl⟩
      simp only [List.mem_singleton] at hcx
      subst hcx; decide
    · subst h2; decide
    · subst h2; decide
  · intro hq; subst hq; revert h; decide

theorem ident_head_not_ws {w : Chars} (hw : IsIdent w) :
    ∀ c, (w ++ " (".data).head? = some c → c.isWhitespace = false := by
  rcases hw with ⟨hne, hall⟩
  rcases w with _ | ⟨x, w'⟩
  · exact absurd rfl hne
  · intro c hc
    simp only [List.cons_append, List.head?, Option.some.injEq] at hc
    subst hc
    exact not_ws_of_ident (hall x (by simp))

theorem tokens_mkInsertText (table : Chars) (cols : List Chars) :
    takeTok (mkInsertText table cols) = "INSERT".data ∧
      upper (takeTok (restTok (mkInsertText table cols))) = "INTO".data := by
  have hshape : mkInsertText table cols =
      "INSERT".data ++ ' ' :: ("INTO".data ++ ' ' ::
        (table ++ " (".data ++ commaSep cols ++ ") VALUES (".data ++
          commaSep (cols.map (fun _ => ['?'])) ++ ")".data)) := by
    simp [mkInsertText]
  obtain ⟨h1, h2⟩ := @tok_split_space "INSERT".data ("INTO".data ++ ' ' ::
      (table ++ " (".data ++ commaSep cols ++ ") VALUES (".data ++
        commaSep (cols.map (fun _ => ['?'])) ++ ")".data))
    (by decide) (by decide)
  constructor
  · rw [hshape, h1]
  · rw [hshape, h2, takeTok_cons_ws (by decide)]
    obtain ⟨h3, _⟩ := @tok_split_space "INTO".data (table ++ " (".data ++ commaSep cols ++
        ") VALUES (".data ++ commaSep (cols.map (fun _ => ['?'])) ++ ")".data)
      (by decide) (by decide)
    rw [h3]
    decide

theorem classifyL_mkInsertText (table : Chars) (cols : List Chars) :
    classifyL (mkInsertText table cols) = .insert := by
  obtain ⟨h1, h2⟩ := tokens_mkInsertText table cols
  exact classifyL_eq_insert (by rw [h1]; decide) h2

/-- Well-formedness of a column list. -/
def IsIdentList (cols : List Chars) : Prop := cols ≠ [] ∧ ∀ col ∈ cols, IsIdent col

instance (w : Chars) : Decidable (IsIdent w) :=
  inferInstanceAs (Decidable (w ≠ [] ∧ ∀ c ∈ w, isIdentChar c = true))

instance (cols : List Chars) : Decidable (IsIdentList cols) :=
  inferInstanceAs (Decidable (cols ≠ [] ∧ ∀ col ∈ cols, IsIdent col))

theorem parseInsert_mkInsertText {table : Chars} {cols : List Chars}
    (ht : IsIdent table) (hc : IsIdentList cols) :
    parseInsert (mkInsertText table cols) = some (table, cols, [cols.length]) := by
  obtain ⟨h1, h2⟩ := tokens_mkInsertText table cols
  set qs := commaSep (cols.map (fun _ => ['?'])) with hqs
  set X : Chars := table ++ " (".data ++ commaSep cols ++ ") VALUES (".data ++
    qs ++ ")".data with hX
  have hq2 : qs = commaSep (List.replicate cols.length ['?']) := by
    rw [hqs, List.map_const']
  have hshape : mkInsertText table cols =
      "INSERT".data ++ ' ' :: ("INTO".data ++ ' ' :: X) := by
    simp [mkInsertText, hX, hq2]
  have hr1 : restTok (mkInsertText table cols) = ' ' :: ("INTO".data ++ ' ' :: X) := by
    rw [hshape]
    exact (tok_split_space _ (by decide) (by decide)).2
  have hr2 : restTok (restTok (mkInsertText table cols)) = ' ' :: X := by
    rw [hr1, restTok_cons_ws (by decide)]
    exact (tok_split_space _ (by decide) (by decide)).2
  -- the table token
  set rest1 : Chars := " (".data ++ commaSep cols ++ ") VALUES (".data ++
    qs ++ ")".data with hrest1
  have hX2 : X = table ++ rest1 := by simp [hX, hrest1]
  have hXdrop : dropWs (' ' :: X) = X := by
    rw [dropWs_cons_ws (by decide)]
    refine dropWs_of_head (fun c hcc => ?_)
    rcases ht with ⟨hne, hall⟩
    rcases table with _ | ⟨x, w'⟩
    · exact absurd rfl hne
    · rw [hX2] at hcc
      simp only [List.cons_append, List.append_assoc, List.head?, Option.some.injEq] at hcc
      subst hcc
      exact not_ws_of_ident (hall x (by simp))
  have hident := @ident_split table rest1 ht.2 (fun c hcc => by
    rw [hrest1] at hcc
    simp only [List.cons_append, List.head?, Option.some.injEq] at hcc
    subst hcc
    decide)
  -- the column region
  set rest3 : Chars := " VALUES (".data ++ qs ++ [')'] with hrest3
  set rest2 : Chars := commaSep cols ++ ')' :: rest3 with hrest2
  have hrest1' : rest1 = ' ' :: '(' :: rest2 := by
    simp [hrest1, hrest2, hrest3]
  have hnoparen : ∀ c ∈ commaSep cols, (fun c => decide (c ≠ ')')) c = true := by
    intro c hcc
    rcases mem_commaSep hcc with ⟨x, hx, hcx⟩ | h2 | h2
    · have := (hc.2 x hx).2 c hcx
      simpa using ne_of_ident this (by decide)
    · subst h2; decide
    · subst h2; decide
  have hcolsStr : rest2.takeWhile (fun c => c ≠ ')') = commaSep cols := by
    rw [hrest2, takeWhile_append_all _ hnoparen]
    simp [List.takeWhile_cons]
  have hcolsDrop : rest2.dropWhile (fun c => c ≠ ')') = ')' :: rest3 := by
    rw [hrest2, dropWhile_append_all _ hnoparen]
    simp [List.dropWhile_cons]
  have hsplit : (splitComma (commaSep cols)).map trimWs = cols :=
    splitComma_commaSep cols hc.1 (fun col hcol => hc.2 col hcol)
  have hall : cols.all (fun c => decide (c ≠ []) && c.all isIdentChar) = true := by
    refine List.all_eq_true.mpr (fun col hcol => ?_)
    obtain ⟨hne, hid⟩ := hc.2 col hcol
    rw [Bool.and_eq_true]
    exact ⟨by simpa using hne, List.all_eq_true.mpr hid⟩
  -- the VALUES region
  have hr6 : dropWs rest3 = "VALUES (".data ++ qs ++ [')'] := by
    rw [hrest3, show (" VALUES (".data ++ qs ++ [')'] : Chars) =
      ' ' :: ("VALUES (".data ++ qs ++ [')']) from by simp, dropWs_cons_ws (by decide)]
    exact dropWs_of_head (fun c hcc => by
      simp only [List.cons_append, List.append_assoc, List.head?, Option.some.injEq] at hcc
      subst hcc; decide)
  have htake6 : ("VALUES (".data ++ qs ++ [')'] : Chars).take 6 = "VALUES".data := by
    rw [show ("VALUES (".data ++ qs ++ [')'] : Chars) =
      "VALUES".data ++ (" (".data ++ qs ++ [')']) from by simp,
      show (6 : Nat) = ("VALUES".data).length from rfl, List.take_left]
  have hdrop6 : ("VALUES (".data ++ qs ++ [')'] : Chars).drop 6 = " (".data ++ qs ++ [')'] := by
    rw [show ("VALUES (".data ++ qs ++ [')'] : Chars) =
      "VALUES".data ++ (" (".data ++ qs ++ [')']) from by simp,
      show (6 : Nat) = ("VALUES".data).length from rfl, List.drop_left]
  have hfilter : (" (".data ++ qs ++ [')'] : Chars).filter (fun c => !c.isWhitespace) =
      '(' :: (qMarks cols.length ++ [')']) := by
    rw [show (" (".data ++ qs ++ [')'] : Chars) = ' ' :: '(' :: (qs ++ [')']) from by simp,
      show (' ' :: '(' :: (qs ++ [')']) : Chars).filter (fun c => !c.isWhitespace) =
        '(' :: (qs ++ [')']).filter (fun c => !c.isWhitespace) from by
          simp [List.filter_cons],
      List.filter_append, hq2, filter_commaSep_qs]
    simp
  have hvals : parseVals ((" (".data ++ qs ++ [')'] : Chars).filter
      (fun c => !c.isWhitespace)) = some [cols.length] := by
    rw [hfilter]
    exact parseVals_qs cols.length (by
      rcases cols with _ | ⟨c0, r⟩
      · exact absurd rfl hc.1
      · simp)
  -- assemble
  simp only [parseInsert]
  rw [h1, hr2, hr1]
  rw [takeTok_cons_ws (by decide)]
  rw [(@tok_split_space "INTO".data _ (by decide) (by decide)).1]
  rw [if_pos (by decide : upper "INSERT".data = "INSERT".data ∧
    upper "INTO".data = "INTO".data)]
  rw [hXdrop, hX2, hident.1, hident.2]
  rw [if_neg (by simpa using ht.1)]
  rw [hrest1', show dropWs (' ' :: '(' :: rest2) = '(' :: rest2 from by
    rw [dropWs_cons_ws (by decide)]
    exact dropWs_of_head (fun c hcc => by
      simp only [List.head?, Option.some.injEq] at hcc
      subst hcc; decide)]
  simp only [hcolsStr, hcolsDrop, hsplit, hall, if_true]
  rw [hr6, htake6]
  rw [if_pos (by decide : upper "VALUES".data = "VALUES".data)]
  rw [hdrop6, hvals]
  simp

/-- The INSERT DOCUMENTS query text: `INSERT INTO <table> DOCUMENTS (:doc)`. -/
def insertQuery (table : Chars) : Chars :=
  "INSERT INTO ".data ++ table ++ " DOCUMENTS (:doc)".data

theorem sqlToDqlL_mkInsertText {table : Chars} {cols : List Chars}
    (ht : IsIdent table) (hc : IsIdentList cols) (params : List Value) :
    sqlToDqlL (mkInsertText table cols) params =
      .ok ⟨insertQuery table,
        some [("doc".data, .doc ((cols.map renameIdCol).zip params))]⟩ := by
  have hclass := classifyL_mkInsertText table cols
  have hstrip := stripQuotes_mkInsertText ht hc.2
  have hparse := parseInsert_mkInsertText ht hc
  simp only [sqlToDqlL, hclass, hstrip, translateInsert, hparse, List.length_cons,
    List.length_nil, if_pos, insertQuery]

/-! ### The CREATE INDEX statement families -/

/-- The full `CREATE INDEX <name> ON <table> (<inner>)<suffix>` text with
the closing parenthesis made explicit. -/
def ciText (name tbl inner suffix : Chars) : Chars :=
  "CREATE INDEX ".data ++ name ++ " ON ".data ++ tbl ++ " (".data ++ inner ++ ')' :: suffix

set_option maxHeartbeats 1000000 in
theorem translateCreateIndex_ciText {name tbl inner suffix : Chars}
    (hname : IsIdent name) (hnif : ¬(upper name = "IF".data)) (htbl : IsIdent tbl)
    (hinner : ∀ c ∈ inner, c ≠ ')') :
    translateCreateIndex (ciText name tbl inner suffix) =
      ciAfterParen false name tbl inner suffix := by
  set W : Chars := inner ++ ')' :: suffix with hW
  set Z : Chars := tbl ++ ' ' :: '(' :: W with hZ
  set Y : Chars := name ++ ' ' :: ("ON".data ++ ' ' :: Z) with hY
  have hshape : ciText name tbl inner suffix =
      "CREATE".data ++ ' ' :: ("INDEX".data ++ ' ' :: Y) := by
    simp [ciText, hY, hZ, hW]
  have hr1 : restTok (ciText name tbl inner suffix) =
      ' ' :: ("INDEX".data ++ ' ' :: Y) := by
    rw [hshape]; exact (tok_split_space _ (by decide) (by decide)).2
  have ht1 : takeTok (ciText name tbl inner suffix) = "CREATE".data := by
    rw [hshape]; exact (tok_split_space _ (by decide) (by decide)).1
  have ht2 : takeTok (restTok (ciText name tbl inner suffix)) = "INDEX".data := by
    rw [hr1, takeTok_cons_ws (by decide)]
    exact (tok_split_space _ (by decide) (by decide)).1
  have hr2 : restTok (restTok (ciText name tbl inner suffix)) = ' ' :: Y := by
    rw [hr1, restTok_cons_ws (by decide)]
    exact (tok_split_space _ (by decide) (by decide)).2
  have hnametok : takeTok (' ' :: Y) = name := by
    rw [takeTok_cons_ws (by decide), hY]
    exact (tok_split_space _ hname.1 (fun c hcc => not_ws_of_ident (hname.2 c hcc))).1
  have hdropY : dropWs (' ' :: Y) = Y := by
    rw [dropWs_cons_ws (by decide), hY]
    rcases hname with ⟨hne, hall⟩
    rcases name with _ | ⟨x, w'⟩
    · exact absurd rfl hne
    · refine dropWs_of_head (fun c hcc => ?_)
      simp only [List.cons_append, List.head?, Option.some.injEq] at hcc
      subst hcc
      exact not_ws_of_ident (hall x (by simp))
  have hidentY := @ident_split name (' ' :: ("ON".data ++ ' ' :: Z)) hname.2
    (fun c hcc => by
      simp only [List.head?, Option.some.injEq] at hcc
      subst hcc; decide)
  have hr3tok : takeTok (' ' :: ("ON".data ++ ' ' :: Z)) = "ON".data := by
    rw [takeTok_cons_ws (by decide)]
    exact (tok_split_space _ (by decide) (by decide)).1
  have hr3rest : restTok (' ' :: ("ON".data ++ ' ' :: Z)) = ' ' :: Z := by
    rw [restTok_cons_ws (by decide)]
    exact (tok_split_space _ (by decide) (by decide)).2
  have hdropZ : dropWs (' ' :: Z) = Z := by
    rw [dropWs_cons_ws (by decide), hZ]
    rcases htbl with ⟨hne, hall⟩
    rcases tbl with _ | ⟨x, w'⟩
    · exact absurd rfl hne
    · refine dropWs_of_head (fun c hcc => ?_)
      simp only [List.cons_append, List.head?, Option.some.injEq] at hcc
      subst hcc
      exact not_ws_of_ident (hall x (by simp))
  have hidentZ := @ident_split tbl (' ' :: '(' :: W) htbl.2
    (fun c hcc => by
      simp only [List.head?, Option.some.injEq] at hcc
      subst hcc; decide)
  have hdropW : dropWs (' ' :: '(' :: W) = '(' :: W := by
    rw [dropWs_cons_ws (by decide)]
    rfl
  have hcolsW1 : W.takeWhile (fun c => c ≠ ')') = inner := by
    rw [hW, takeWhile_append_all _ (fun c hcc => by simpa using hinner c hcc)]
    simp [List.takeWhile_cons]
  have hcolsW2 : W.dropWhile (fun c => c ≠ ')') = ')' :: suffix := by
    rw [hW, dropWhile_append_all _ (fun c hcc => by simpa using hinner c hcc)]
    simp [List.dropWhile_cons]
  -- walk the dispatcher
  have e1 : translateCreateIndex (ciText name tbl inner suffix) = ciBody false (' ' :: Y) := by
    rw [translateCreateIndex, ht1, ht2, hr2, hnametok,
      if_pos (by decide : upper "CREATE".data = "CREATE".data ∧
        upper "INDEX".data = "INDEX".data), if_neg hnif]
  have e2 : ciBody false (' ' :: Y) =
      ciAfterName false name (' ' :: ("ON".data ++ ' ' :: Z)) := by
    rw [ciBody, hdropY, hY, hidentY.1, hidentY.2,
      if_pos ⟨by simpa using hname.1, List.all_eq_true.mpr hname.2⟩]
  have e3 : ciAfterName false name (' ' :: ("ON".data ++ ' ' :: Z)) =
      ciAfterTable false name tbl (' ' :: '(' :: W) := by
    rw [ciAfterName, hr3tok,
      if_pos (by decide : upper "ON".data = "ON".data),
      hr3rest, hdropZ, hZ, hidentZ.1, hidentZ.2,
      if_pos (by simpa using htbl.1)]
  have e4 : ciAfterTable false name tbl (' ' :: '(' :: W) =
      ciAfterParen false name tbl inner suffix := by
    rw [ciAfterTable, hdropW]
    simp only [hcolsW1, hcolsW2]
    simp
  rw [e1, e2, e3, e4]

/-! ### Lookup facts for the aggregate-row mapper (claim C4) -/

theorem lookup_append_some {f : Chars} {v : Value} {a : Doc} (b : Doc)
    (h : a.lookup f = some v) : (a ++ b).lookup f = some v := by
  induction a with
  | nil => simp [List.lookup] at h
  | cons e t ih =>
    by_cases he : f == e.1
    · simp only [List.lookup, he] at h ⊢
      simpa using h
    · rcases e with ⟨k, w⟩
      simp only [List.cons_append, List.lookup, he] at h ⊢
      exact ih h

theorem lookup_append_none {f : Chars} {a : Doc} (b : Doc)
    (h : a.lookup f = none) : (a ++ b).lookup f = b.lookup f := by
  induction a with
  | nil => simp
  | cons e t ih =>
    by_cases he : f == e.1
    · simp only [List.lookup, he] at h
      exact Option.noConfusion h
    · rcases e with ⟨k, w⟩
      simp only [List.cons_append, List.lookup, he] at h ⊢
      exact ih h

theorem lookup_append_single_ne {f g : Chars} {a : Doc} {w : Value} (hne : f ≠ g) :
    (a ++ [(g, w)]).lookup f = a.lookup f := by
  rcases h : a.lookup f with _ | v
  · rw [lookup_append_none _ h]
    simp only [List.lookup]
    have : (f == g) = false := by simpa using hne
    simp [this]
  · exact lookup_append_some _ h

theorem mapAggRowGo_lookup_not_mem (doc : Doc) {f : Chars} (fs : List Chars)
    (k : Nat) (acc : Doc) (hf : f ∉ fs) :
    (mapAggRowGo doc k fs acc).lookup f = acc.lookup f := by
  induction fs generalizing k acc with
  | nil => rfl
  | cons g gs ih =>
    have hfg : f ≠ g := fun h => hf (by simp [h])
    have hfs : f ∉ gs := fun h => hf (by simp [h])
    simp only [mapAggRowGo]
    rw [ih _ _ hfs]
    split
    · rfl
    · rcases doc.lookup (aggKey k) with _ | v
      · rfl
      · exact lookup_append_single_ne hfg

theorem mapAggRowGo_lookup_some (doc : Doc) {f : Chars} {v : Value} (fs : List Chars)
    (k : Nat) (acc : Doc) (h : acc.lookup f = some v) :
    (mapAggRowGo doc k fs acc).lookup f = some v := by
  induction fs generalizing k acc with
  | nil => exact h
  | cons g gs ih =>
    simp only [mapAggRowGo]
    refine ih _ _ ?_
    split
    · exact h
    · rcases doc.lookup (aggKey k) with _ | w
      · exact h
      · exact lookup_append_some _ h

theorem mapAggRowGo_lookup_at (doc : Doc) (fs : List Chars) (k : Nat) (acc : Doc)
    (hnd : fs.Nodup) (i : Nat) (hi : i < fs.length)
    (hnone : acc.lookup (fs.get ⟨i, hi⟩) = none) :
    (mapAggRowGo doc k fs acc).lookup (fs.get ⟨i, hi⟩) = doc.lookup (aggKey (k + i)) := by
  induction fs generalizing k acc i with
  | nil => simp at hi
  | cons g gs ih =>
    obtain ⟨hgnotin, hndgs⟩ := List.nodup_cons.mp hnd
    rcases i with _ | j
    · simp only [List.get] at hnone ⊢
      simp only [mapAggRowGo]
      have hif : (acc.lookup g).isSome = false := by simp [hnone]
      rw [if_neg (by simp [hif])]
      rcases hdk : doc.lookup (aggKey k) with _ | v
      · rw [mapAggRowGo_lookup_not_mem doc gs (k + 1) acc hgnotin, hnone, Nat.add_zero, hdk]
      · rw [mapAggRowGo_lookup_not_mem doc gs (k + 1) _ hgnotin,
          lookup_append_none _ hnone, Nat.add_zero, hdk]
        simp [List.lookup]
    · simp only [List.get] at hnone ⊢
      have hfin : gs.get ⟨j, by simpa using hi⟩ ∈ gs := List.get_mem gs j _
      have hfg : gs.get ⟨j, by simpa using hi⟩ ≠ g := fun h => hgnotin (h ▸ hfin)
      simp only [mapAggRowGo]
      have hacc' : ∀ acc' : Doc, acc'.lookup (gs.get ⟨j, by simpa using hi⟩) = none →
          (mapAggRowGo doc (k + 1) gs acc').lookup (gs.get ⟨j, by simpa using hi⟩) =
            doc.lookup (aggKey (k + 1 + j)) := fun acc' h' =>
        ih (k + 1) acc' hndgs j (by simpa using hi) h'
      rw [show k + (j + 1) = k + 1 + j from by omega]
      split
      · exact hacc' acc hnone
      · rcases hdk : doc.lookup (aggKey k) with _ | v
        · exact hacc' acc hnone
        · exact hacc' _ (by rw [lookup_append_single_ne hfg]; exact hnone)

/-! ### Accepted CREATE INDEX statements contain no placeholder -/

theorem countQ_takeWhile_ident (l : Chars) :
    countQ (l.takeWhile isIdentChar) = 0 :=
  countQ_eq_zero_of_ident (fun c hc => List.mem_takeWhile_imp hc)

theorem ciAfterParen_ok {ine : Bool} {name tbl colsStr suffix : Chars}
    {r : TranslationResult}
    (h : ciAfterParen ine name tbl colsStr suffix = .ok r) :
    countQ colsStr = 0 ∧ countQ suffix = 0 := by
  rw [ciAfterParen] at h
  split at h
  · exact absurd h (by simp)
  · split at h
    · exact absurd h (by simp)
    · split at h
      · rename_i hcond
        obtain ⟨h1, h2, h3⟩ := hcond
        constructor
        · rw [← countQ_trimWs]
          exact countQ_eq_zero_of_identDot (fun c hc => List.all_eq_true.mp h2 c hc)
        · have hsplit2 := @List.takeWhile_append_dropWhile _ Char.isWhitespace suffix
          rw [show countQ suffix =
            countQ (suffix.takeWhile Char.isWhitespace ++ suffix.dropWhile Char.isWhitespace)
            from by rw [hsplit2]]
          rw [countQ_append, countQ_takeWhile_ws,
            show suffix.dropWhile Char.isWhitespace = dropWs suffix from rfl, h3]
          rfl
      · exact absurd h (by simp [ciMalformed])

theorem ciAfterTable_ok {ine : Bool} {name tbl r4 : Chars} {r : TranslationResult}
    (h : ciAfterTable ine name tbl r4 = .ok r) : countQ r4 = 0 := by
  rw [ciAfterTable] at h
  split at h
  · rename_i c r5 heq
    split at h
    · rename_i hc
      subst hc
      split at h
      · rename_i d r6 heq2
        split at h
        · rename_i hd
          subst hd
          obtain ⟨hcs, hsuf⟩ := ciAfterParen_ok h
          have hr5 : countQ r5 = 0 := by
            have hsp := @List.takeWhile_append_dropWhile _
              (fun c => decide (c ≠ ')')) r5
            rw [show countQ r5 =
              countQ (r5.takeWhile (fun c => decide (c ≠ ')')) ++
                r5.dropWhile (fun c => decide (c ≠ ')'))) from by rw [hsp]]
            rw [countQ_append, heq2]
            have : countQ (')' :: r6) = countQ r6 := by
              simp [countQ, List.count_cons]
            rw [this, hsuf]
            simpa using hcs
          have : countQ (dropWs r4) = 0 := by
            rw [heq]
            simpa [countQ, List.count_cons] using hr5
          rw [← countQ_dropWs]
          exact this
        · exact absurd h (by simp [ciMalformed])
      · exact absurd h (by simp [ciMalformed])
    · exact absurd h (by simp [ciMalformed])
  · exact absurd h (by simp [ciMalformed])

theorem countQ_of_upper_keyword {tok : Chars} {w : String} (h : upper tok = w.data)
    (hw : '?' ∉ w.data) : countQ tok = 0 :=
  countQ_eq_zero_of_upper h hw

theorem ciAfterName_ok {ine : Bool} {name r3 : Chars} {r : TranslationResult}
    (h : ciAfterName ine name r3 = .ok r) : countQ r3 = 0 := by
  rw [ciAfterName] at h
  split at h
  · rename_i hon
    split at h
    · rename_i htblne
      have hr4 := ciAfterTable_ok h
      rw [countQ_split_tok r3, countQ_of_upper_keyword hon (by decide)]
      rw [countQ_split_ident (restTok r3), countQ_takeWhile_ident, hr4]
    · exact absurd h (by simp [ciMalformed])
  · exact absurd h (by simp [ciMalformed])

theorem ciBody_ok {ine : Bool} {r2 : Chars} {r : TranslationResult}
    (h : ciBody ine r2 = .ok r) : countQ r2 = 0 := by
  rw [ciBody] at h
  split at h
  · have hr3 := ciAfterName_ok h
    rw [countQ_split_ident r2, countQ_takeWhile_ident, hr3]
  · exact absurd h (by simp [ciMalformed])

theorem translateCreateIndex_ok {s : Chars} {r : TranslationResult}
    (h : translateCreateIndex s = .ok r) : countQ s = 0 := by
  rw [translateCreateIndex] at h
  split at h
  · rename_i hcr
    obtain ⟨hc1, hc2⟩ := hcr
    split at h
    · rename_i hif
      split at h
      · rename_i hne
        obtain ⟨hnot, hex⟩ := hne
        have h5 := ciBody_ok h
        rw [countQ_split_tok s, countQ_of_upper_keyword hc1 (by decide),
          countQ_split_tok (restTok s), countQ_of_upper_keyword hc2 (by decide),
          countQ_split_tok (restTok (restTok s)),
          countQ_of_upper_keyword hif (by decide),
          countQ_split_tok (restTok (restTok (restTok s))),
          countQ_of_upper_keyword hnot (by decide),
          countQ_split_tok (restTok (restTok (restTok (restTok s)))),
          countQ_of_upper_keyword hex (by decide), h5]
      · exact absurd h (by simp [ciMalformed])
    · have h2 := ciBody_ok h
      rw [countQ_split_tok s, countQ_of_upper_keyword hc1 (by decide),
        countQ_split_tok (restTok s), countQ_of_upper_keyword hc2 (by decide), h2]
  · exact absurd h (by simp [ciMalformed])

/-! ### More support: dispatch, families, args -/

theorem sqlToDqlL_unsupported {s : Chars} (params : List Value)
    (h : classifyL s = .unsupported) :
    sqlToDqlL s params = .error (.unsupportedOperation
      ("Unsupported SQL operation: " ++ String.mk (normalizedKeywordL s))) := by
  simp only [sqlToDqlL, h]

theorem sqlToDqlL_createUnique {s : Chars} (params : List Value)
    (h : classifyL s = .createUniqueIndex) :
    sqlToDqlL s params =
      .error (.unsupportedOperation "Unsupported SQL operation: UNIQUE INDEX") := by
  simp only [sqlToDqlL, h]

theorem sqlToDqlL_dropIndex {s : Chars} (params : List Value)
    (h : classifyL s = .dropIndex) :
    sqlToDqlL s params =
      .error (.unsupportedOperation "Unsupported SQL operation: DROP INDEX") := by
  simp only [sqlToDqlL, h]

theorem sqlToDqlL_createIndex {s : Chars} (params : List Value)
    (h : classifyL s = .createIndex) :
    sqlToDqlL s params = translateCreateIndex (stripQuotes s) := by
  simp only [sqlToDqlL, h]

theorem sqlToDqlL_insert {s : Chars} (params : List Value)
    (h : classifyL s = .insert) :
    sqlToDqlL s params = translateInsert (stripQuotes s) params := by
  simp only [sqlToDqlL, h]

theorem tokens_ciText (name tbl inner suffix : Chars) :
    takeTok (ciText name tbl inner suffix) = "CREATE".data ∧
      upper (takeTok (restTok (ciText name tbl inner suffix))) = "INDEX".data := by
  have hshape : ciText name tbl inner suffix =
      "CREATE".data ++ ' ' :: ("INDEX".data ++ ' ' ::
        (name ++ " ON ".data ++ tbl ++ " (".data ++ inner ++ ')' :: suffix)) := by
    simp [ciText]
  constructor
  · rw [hshape]
    exact (tok_split_space _ (by decide) (by decide)).1
  · rw [hshape, (tok_split_space _ (by decide) (by decide)).2,
      takeTok_cons_ws (by decide), (tok_split_space _ (by decide) (by decide)).1]
    decide

theorem classifyL_ciText (name tbl inner suffix : Chars) :
    classifyL (ciText name tbl inner suffix) = .createIndex := by
  obtain ⟨h1, h2⟩ := tokens_ciText name tbl inner suffix
  exact classifyL_eq_createIndex (by rw [h1]; decide) h2

theorem stripQuotes_ciText {name tbl inner suffix : Chars}
    (hn : ∀ c ∈ name, c ≠ '"') (ht : ∀ c ∈ tbl, c ≠ '"')
    (hi : ∀ c ∈ inner, c ≠ '"') (hs : ∀ c ∈ suffix, c ≠ '"') :
    stripQuotes (ciText name tbl inner suffix) = ciText name tbl inner suffix := by
  refine stripQuotes_eq_self (fun c hmem => ?_)
  simp only [ciText, List.append_assoc, List.mem_append, List.mem_cons] at hmem
  rcases hmem with h | h | h | h | h | h | h | h
  · intro hq; subst hq; revert h; decide
  · exact hn c h
  · intro hq; subst hq; revert h; decide
  · exact ht c h
  · intro hq; subst hq; revert h; decide
  · exact hi c h
  · subst h; decide
  · exact hs c h

theorem comma_mem_commaSep {cols : List Chars} (h : 2 ≤ cols.length) :
    ',' ∈ commaSep cols := by
  rcases cols with _ | ⟨c0, rest⟩
  · simp at h
  rcases rest with _ | ⟨c1, rest'⟩
  · simp at h
  rw [show commaSep (c0 :: c1 :: rest') = c0 ++ ',' :: ' ' :: commaSep (c1 :: rest') from by
    simp [commaSep]]
  simp

theorem mem_dropWhile_of_not {p : Char → Bool} {c : Char} {l : Chars}
    (hc : c ∈ l) (hp : p c = false) : c ∈ l.dropWhile p := by
  induction l with
  | nil => simp at hc
  | cons x t ih =>
    by_cases hx : p x = true
    · rw [List.dropWhile_cons, if_pos hx]
      rcases List.mem_cons.mp hc with rfl | hct
      · rw [hp] at hx; exact absurd hx (by simp)
      · exact ih hct
    · rw [List.dropWhile_cons, if_neg hx]
      exact hc

theorem mem_trimWs_of_not_ws {c : Char} {l : Chars} (hc : c ∈ l)
    (hws : c.isWhitespace = false) : c ∈ trimWs l := by
  have h1 : c ∈ dropWs l := mem_dropWhile_of_not hc hws
  have h2 : c ∈ (dropWs l).reverse := by simpa using h1
  have h3 : c ∈ dropWs ((dropWs l).reverse) := mem_dropWhile_of_not h2 hws
  rw [trimWs, dropTrailWs]
  simpa using h3

theorem argEntries_take (params : List Value) (n : Nat) :
    argEntries (params.take n) n = argEntries params n := by
  simp only [argEntries]
  refine List.map_congr_left (fun i hi => ?_)
  have hin : i < n := List.mem_range.mp hi
  have : (params.take n).getD i .vNull = params.getD i .vNull := by
    simp only [List.getD_eq_getD_get?]
    rw [List.get?_take hin]
  rw [this]

theorem translateGeneric_take (s : Chars) (params : List Value) :
    translateGeneric s (params.take (countQ s)) = translateGeneric s params := by
  simp only [translateGeneric]
  rcases h : countQ s with _ | n
  · simp
  · simp only [argEntries_take]

theorem mapBack_zip (cols : List Chars) (params : List Value)
    (h : "_id".data ∉ cols) :
    mapDqlResultToSql ((cols.map renameIdCol).zip params) = cols.zip params := by
  induction cols generalizing params with
  | nil => simp [mapDqlResultToSql]
  | cons c rest ih =>
    rcases params with _ | ⟨v, vs⟩
    · simp [mapDqlResultToSql]
    · have hc : c ≠ "_id".data := fun hh => h (by simp [hh])
      have hrest : "_id".data ∉ rest := fun hh => h (by simp [hh])
      simp only [List.map_cons, List.zip_cons_cons, mapDqlResultToSql, List.map_cons] at *
      rw [ih vs hrest]
      by_cases hid : c = "id".data
      · subst hid; simp [renameIdCol]
      · simp [renameIdCol, hid, hc]

/-! ### The args field of accepted statements -/

theorem ciAfterParen_ok_args {ine : Bool} {name tbl colsStr suffix : Chars}
    {r : TranslationResult}
    (h : ciAfterParen ine name tbl colsStr suffix = .ok r) : r.args = none := by
  rw [ciAfterParen] at h
  split at h
  · exact absurd h (by simp)
  · split at h
    · exact absurd h (by simp)
    · split at h
      · cases h
        rfl
      · exact absurd h (by simp [ciMalformed])

theorem ciAfterTable_ok_args {ine : Bool} {name tbl r4 : Chars} {r : TranslationResult}
    (h : ciAfterTable ine name tbl r4 = .ok r) : r.args = none := by
  rw [ciAfterTable] at h
  split at h
  · split at h
    · split at h
      · split at h
        · exact ciAfterParen_ok_args h
        · exact absurd h (by simp [ciMalformed])
      · exact absurd h (by simp [ciMalformed])
    · exact absurd h (by simp [ciMalformed])
  · exact absurd h (by simp [ciMalformed])

theorem ciAfterName_ok_args {ine : Bool} {name r3 : Chars} {r : TranslationResult}
    (h : ciAfterName ine name r3 = .ok r) : r.args = none := by
  rw [ciAfterName] at h
  split at h
  · split at h
    · exact ciAfterTable_ok_args h
    · exact absurd h (by simp [ciMalformed])
  · exact absurd h (by simp [ciMalformed])

theorem ciBody_ok_args {ine : Bool} {r2 : Chars} {r : TranslationResult}
    (h : ciBody ine r2 = .ok r) : r.args = none := by
  rw [ciBody] at h
  split at h
  · exact ciAfterName_ok_args h
  · exact absurd h (by simp [ciMalformed])

theorem translateCreateIndex_ok_args {s : Chars} {r : TranslationResult}
    (h : translateCreateIndex s = .ok r) : r.args = none := by
  rw [translateCreateIndex] at h
  split at h
  · split at h
    · split at h
      · exact ciBody_ok_args h
      · exact absurd h (by simp [ciMalformed])
    · exact ciBody_ok_args h
  · exact absurd h (by simp [ciMalformed])

theorem translateInsert_ok_args {s : Chars} {params : List Value} {r : TranslationResult}
    (h : translateInsert s params = .ok r) : ∃ m, r.args = some m := by
  rw [translateInsert] at h
  split at h
  · exact absurd h (by simp)
  · split at h
    · cases h
      exact ⟨_, rfl⟩
    · cases h
      exact ⟨_, rfl⟩

/-! ## Claim theorems -/

theorem classifyL_eq_unsupported_CT {s : Chars}
    (h1 : upper (takeTok s) = "CREATE".data)
    (h2 : upper (takeTok (restTok s)) = "TABLE".data) :
    classifyL s = .unsupported := by
  simp +decide [classifyL, h1, h2]

theorem classifyL_eq_unsupported_DT {s : Chars}
    (h1 : upper (takeTok s) = "DROP".data)
    (h2 : upper (takeTok (restTok s)) = "TABLE".data) :
    classifyL s = .unsupported := by
  simp +decide [classifyL, h1, h2]

theorem classifyL_eq_unsupported_AL {s : Chars}
    (h1 : upper (takeTok s) = "ALTER".data) :
    classifyL s = .unsupported := by
  simp +decide [classifyL, h1]

theorem classifyL_eq_unsupported_TR {s : Chars}
    (h1 : upper (takeTok s) = "TRUNCATE".data) :
    classifyL s = .unsupported := by
  simp +decide [classifyL, h1]

theorem normalizedKeywordL_eq_of {s w1 w2 : Chars}
    (h1 : upper (takeTok s) = w1) (h2 : upper (takeTok (restTok s)) = w2)
    (hmem : w1 ∈ twoWordLeads) (hne : w2 ≠ []) :
    normalizedKeywordL s = w1 ++ ' ' :: w2 := by
  simp only [normalizedKeywordL, h1, h2]
  rw [if_pos ⟨hmem, hne⟩]

theorem two_word_toks {w1 w2 : String} (rest : Chars)
    (hw1 : w1.data ≠ [] ∧ ∀ c ∈ w1.data, c.isWhitespace = false)
    (hw2 : w2.data ≠ [] ∧ ∀ c ∈ w2.data, c.isWhitespace = false) :
    takeTok (w1.data ++ ' ' :: (w2.data ++ ' ' :: rest)) = w1.data ∧
    takeTok (restTok (w1.data ++ ' ' :: (w2.data ++ ' ' :: rest))) = w2.data := by
  obtain ⟨ha, hb⟩ := @tok_split_space w1.data
    (w2.data ++ ' ' :: rest) hw1.1 hw1.2
  refine ⟨ha, ?_⟩
  rw [hb, takeTok_cons_ws (by decide)]
  exact (tok_split_space _ hw2.1 hw2.2).1

/-- Claim C7: every statement whose leading keyword sequence is none of
SELECT, INSERT INTO, UPDATE, DELETE FROM, CREATE [UNIQUE] INDEX or DROP
INDEX — in particular CREATE TABLE, ALTER TABLE, DROP TABLE and TRUNCATE
statements — fails with the message
`Unsupported SQL operation: <normalized-keyword>`. -/
theorem claim_C7 :
    (∀ (s : Chars) (params : List Value), classifyL s = .unsupported →
      sqlToDqlL s params = .error (.unsupportedOperation
        ("Unsupported SQL operation: " ++ String.mk (normalizedKeywordL s)))) ∧
    (∀ (rest : Chars) (params : List Value),
      sqlToDqlL ("CREATE TABLE ".data ++ rest) params =
        .error (.unsupportedOperation "Unsupported SQL operation: CREATE TABLE")) ∧
    (∀ (rest : Chars) (params : List Value),
      sqlToDqlL ("ALTER TABLE ".data ++ rest) params =
        .error (.unsupportedOperation "Unsupported SQL operation: ALTER TABLE")) ∧
    (∀ (rest : Chars) (params : List Value),
      sqlToDqlL ("DROP TABLE ".data ++ rest) params =
        .error (.unsupportedOperation "Unsupported SQL operation: DROP TABLE")) ∧
    (∀ (rest : Chars) (params : List Value),
      sqlToDqlL ("TRUNCATE TABLE ".data ++ rest) params =
        .error (.unsupportedOperation "Unsupported SQL operation: TRUNCATE TABLE")) := by
  refine ⟨fun s params h => sqlToDqlL_unsupported params h, ?_, ?_, ?_, ?_⟩ <;>
    intro rest params
  · obtain ⟨h1, h2⟩ := @two_word_toks "CREATE" "TABLE" rest
      (by decide) (by decide)
    rw [show ("CREATE TABLE ".data ++ rest : Chars) =
      "CREATE".data ++ ' ' :: ("TABLE".data ++ ' ' :: rest) from rfl]
    have h1u : upper (takeTok ("CREATE".data ++ ' ' :: ("TABLE".data ++ ' ' :: rest))) =
        "CREATE".data := by rw [h1]; decide
    have h2u : upper (takeTok (restTok
        ("CREATE".data ++ ' ' :: ("TABLE".data ++ ' ' :: rest)))) = "TABLE".data := by
      rw [h2]; decide
    rw [sqlToDqlL_unsupported params (classifyL_eq_unsupported_CT h1u h2u),
      normalizedKeywordL_eq_of h1u h2u (by decide) (by decide),
      show ("Unsupported SQL operation: " ++
        String.mk ("CREATE".data ++ ' ' :: "TABLE".data) : String) =
        "Unsupported SQL operation: CREATE TABLE" from by decide]
  · obtain ⟨h1, h2⟩ := @two_word_toks "ALTER" "TABLE" rest
      (by decide) (by decide)
    rw [show ("ALTER TABLE ".data ++ rest : Chars) =
      "ALTER".data ++ ' ' :: ("TABLE".data ++ ' ' :: rest) from rfl]
    have h1u : upper (takeTok ("ALTER".data ++ ' ' :: ("TABLE".data ++ ' ' :: rest))) =
        "ALTER".data := by rw [h1]; decide
    have h2u : upper (takeTok (restTok
        ("ALTER".data ++ ' ' :: ("TABLE".data ++ ' ' :: rest)))) = "TABLE".data := by
      rw [h2]; decide
    rw [sqlToDqlL_unsupported params (classifyL_eq_unsupported_AL h1u),
      normalizedKeywordL_eq_of h1u h2u (by decide) (by decide),
      show ("Unsupported SQL operation: " ++
        String.mk ("ALTER".data ++ ' ' :: "TABLE".data) : String) =
        "Unsupported SQL operation: ALTER TABLE" from by decide]
  · obtain ⟨h1, h2⟩ := @two_word_toks "DROP" "TABLE" rest
      (by decide) (by decide)
    rw [show ("DROP TABLE ".data ++ rest : Chars) =
      "DROP".data ++ ' ' :: ("TABLE".data ++ ' ' :: rest) from rfl]
    have h1u : upper (takeTok ("DROP".data ++ ' ' :: ("TABLE".data ++ ' ' :: rest))) =
        "DROP".data := by rw [h1]; decide
    have h2u : upper (takeTok (restTok
        ("DROP".data ++ ' ' :: ("TABLE".data ++ ' ' :: rest)))) = "TABLE".data := by
      rw [h2]; decide
    rw [sqlToDqlL_unsupported params (classifyL_eq_unsupported_DT h1u h2u),
      normalizedKeywordL_eq_of h1u h2u (by decide) (by decide),
      show ("Unsupported SQL operation: " ++
        String.mk ("DROP".data ++ ' ' :: "TABLE".data) : String) =
        "Unsupported SQL operation: DROP TABLE" from by decide]
  · obtain ⟨h1, h2⟩ := @two_word_toks "TRUNCATE" "TABLE" rest
      (by decide) (by decide)
    rw [show ("TRUNCATE TABLE ".data ++ rest : Chars) =
      "TRUNCATE".data ++ ' ' :: ("TABLE".data ++ ' ' :: rest) from rfl]
    have h1u : upper (takeTok
        ("TRUNCATE".data ++ ' ' :: ("TABLE".data ++ ' ' :: rest))) =
        "TRUNCATE".data := by rw [h1]; decide
    have h2u : upper (takeTok (restTok
        ("TRUNCATE".data ++ ' ' :: ("TABLE".data ++ ' ' :: rest)))) = "TABLE".data := by
      rw [h2]; decide
    rw [sqlToDqlL_unsupported params (classifyL_eq_unsupported_TR h1u),
      normalizedKeywordL_eq_of h1u h2u (by decide) (by decide),
      show ("Unsupported SQL operation: " ++
        String.mk ("TRUNCATE".data ++ ' ' :: "TABLE".data) : String) =
        "Unsupported SQL operation: TRUNCATE TABLE" from by decide]

/-- Claim C7, witnessed at the repository's own test inputs
`SELEKT * FORM users` and `CREATE TABLE users (id INT)`. -/
theorem claim_C7_witness :
    classifyL "SELEKT * FORM users".data = .unsupported ∧
    sqlToDqlL "SELEKT * FORM users".data [] =
      .error (.unsupportedOperation
        ("Unsupported SQL operation: " ++
          String.mk (normalizedKeywordL "SELEKT * FORM users".data))) ∧
    sqlToDqlL "CREATE TABLE users (id INT)".data [] =
      .error (.unsupportedOperation "Unsupported SQL operation: CREATE TABLE") :=
  ⟨by decide, claim_C7.1 _ [] (by decide),
   claim_C7.2.1 "users (id INT)".data []⟩

/-- Claim C8: for every successfully translated statement, `args` is
absent exactly when the text holds zero `?` placeholders and the
statement is not an INSERT. -/
theorem claim_C8 (s : Chars) (params : List Value) (r : TranslationResult)
    (h : sqlToDqlL s params = .ok r) :
    r.args = none ↔ (countQ s = 0 ∧ classifyL s ≠ .insert) := by
  cases hcl : classifyL s with
  | select =>
    simp only [sqlToDqlL, hcl, Except.ok.injEq] at h
    subst h
    simp only [translateGeneric, hcl]
    constructor
    · intro ha
      by_cases hn : countQ s = 0
      · exact ⟨hn, by simp⟩
      · rw [if_neg hn] at ha
        exact absurd ha (by simp)
    · rintro ⟨hn, _⟩
      rw [if_pos hn]
  | update =>
    simp only [sqlToDqlL, hcl, Except.ok.injEq] at h
    subst h
    simp only [translateGeneric, hcl]
    constructor
    · intro ha
      by_cases hn : countQ s = 0
      · exact ⟨hn, by simp⟩
      · rw [if_neg hn] at ha
        exact absurd ha (by simp)
    · rintro ⟨hn, _⟩
      rw [if_pos hn]
  | delete =>
    simp only [sqlToDqlL, hcl, Except.ok.injEq] at h
    subst h
    simp only [translateGeneric, hcl]
    constructor
    · intro ha
      by_cases hn : countQ s = 0
      · exact ⟨hn, by simp⟩
      · rw [if_neg hn] at ha
        exact absurd ha (by simp)
    · rintro ⟨hn, _⟩
      rw [if_pos hn]
  | insert =>
    simp only [sqlToDqlL, hcl] at h
    obtain ⟨m, hm⟩ := translateInsert_ok_args h
    constructor
    · intro ha
      rw [ha] at hm
      exact absurd hm (by simp)
    · rintro ⟨_, hne⟩
      exact absurd rfl hne
  | createIndex =>
    simp only [sqlToDqlL, hcl] at h
    have ha := translateCreateIndex_ok_args h
    have hq : countQ s = 0 := by
      rw [← countQ_stripQuotes]
      exact translateCreateIndex_ok h
    simp [ha, hq, hcl]
  | createUniqueIndex =>
    simp only [sqlToDqlL, hcl] at h
    exact absurd h (by simp)
  | dropIndex =>
    simp only [sqlToDqlL, hcl] at h
    exact absurd h (by simp)
  | unsupported =>
    simp only [sqlToDqlL, hcl] at h
    exact absurd h (by simp)

/-- Claim C8, witnessed at a placeholder-free SELECT, a SELECT with one
placeholder and an INSERT. -/
theorem claim_C8_witness :
    (sqlToDqlL "SELECT * FROM users".data [] =
      .ok ⟨"SELECT * FROM users".data, none⟩) ∧
    ((none : Option (List (Chars × ArgValue))) = none ↔
      (countQ "SELECT * FROM users".data = 0 ∧
        classifyL "SELECT * FROM users".data ≠ .insert)) ∧
    (some [("arg1".data, ArgValue.prim (.vInt 1))] = none ↔
      (countQ "SELECT * FROM users WHERE age > ?".data = 0 ∧
        classifyL "SELECT * FROM users WHERE age > ?".data ≠ .insert)) ∧
    (some [("doc".data, ArgValue.doc [("name".data, Value.vStr "A")])] = none ↔
      (countQ "INSERT INTO users (name) VALUES (?)".data = 0 ∧
        classifyL "INSERT INTO users (name) VALUES (?)".data ≠ .insert)) :=
  ⟨rfl,
   claim_C8 "SELECT * FROM users".data [] ⟨"SELECT * FROM users".data, none⟩ rfl,
   claim_C8 "SELECT * FROM users WHERE age > ?".data [.vInt 1]
     ⟨"SELECT * FROM users WHERE age > :arg1".data,
      some [("arg1".data, ArgValue.prim (.vInt 1))]⟩ rfl,
   claim_C8 "INSERT INTO users (name) VALUES (?)".data [.vStr "A"]
     ⟨"INSERT INTO users DOCUMENTS (:doc)".data,
      some [("doc".data, ArgValue.doc [("name".data, Value.vStr "A")])]⟩ rfl⟩

/-- Claim C9, corrected: `sqlToDql` performs no placeholder/parameter
arity check — a SELECT, UPDATE or DELETE translation succeeds regardless
and depends only on the first `countQ` parameters, silently ignoring
extras. -/
theorem claim_C9 (s : Chars) (params : List Value)
    (hk : classifyL s = .select ∨ classifyL s = .update ∨ classifyL s = .delete) :
    sqlToDqlL s params = sqlToDqlL s (params.take (countQ s)) ∧
    ∃ r, sqlToDqlL s params = .ok r := by
  have hgen : sqlToDqlL s params = .ok (translateGeneric s params) := by
    rcases hk with h | h | h <;> simp only [sqlToDqlL, h]
  have hgen2 : sqlToDqlL s (params.take (countQ s)) =
      .ok (translateGeneric s (params.take (countQ s))) := by
    rcases hk with h | h | h <;> simp only [sqlToDqlL, h]
  rw [hgen, hgen2, translateGeneric_take]
  exact ⟨rfl, _, rfl⟩

/-- Claim C9's counterexample: the repository's own test input
`UPDATE users SET` with one parameter and zero placeholders translates
successfully instead of failing with an arity diagnostic. -/
theorem claim_C9_counterexample :
    countQ "UPDATE users SET".data ≠ ([Value.vStr "value"]).length ∧
    sqlToDqlL "UPDATE users SET".data [.vStr "value"] =
      .ok ⟨"UPDATE users SET".data, none⟩ :=
  ⟨by decide, rfl⟩

/-- Claim C9, witnessed at a SELECT with one placeholder and two
parameters. -/
theorem claim_C9_witness :
    (classifyL "SELECT * FROM users WHERE age > ?".data = .select ∨
      classifyL "SELECT * FROM users WHERE age > ?".data = .update ∨
      classifyL "SELECT * FROM users WHERE age > ?".data = .delete) ∧
    (sqlToDqlL "SELECT * FROM users WHERE age > ?".data [.vInt 1, .vStr "extra"] =
      sqlToDqlL "SELECT * FROM users WHERE age > ?".data
        ([Value.vInt 1, Value.vStr "extra"].take
          (countQ "SELECT * FROM users WHERE age > ?".data)) ∧
     ∃ r, sqlToDqlL "SELECT * FROM users WHERE age > ?".data
        [.vInt 1, .vStr "extra"] = .ok r) :=
  ⟨Or.inl (by decide),
   claim_C9 "SELECT * FROM users WHERE age > ?".data [.vInt 1, .vStr "extra"]
     (Or.inl (by decide))⟩

/-- Claim C10: `DittoSQLitePreparedQuery.get` on the plain path appends
` LIMIT 1` exactly when the translated text does not already contain
`LIMIT` case-insensitively, and returns `undefined` on an empty item list
and the first item's document through the result mapper otherwise. -/
theorem claim_C10 :
    (∀ q : Chars, containsSub "LIMIT".data (upper q) = true → appendLimitOne q = q) ∧
    (∀ q : Chars, containsSub "LIMIT".data (upper q) = false →
      appendLimitOne q = q ++ " LIMIT 1".data) ∧
    (∀ (sql : Chars) (params : List Value) (r : TranslationResult),
      sqlToDqlL sql params = .ok r →
        getQueryL sql params = .ok ⟨appendLimitOne r.query, r.args⟩) ∧
    getResult [] = none ∧
    (∀ (d : Doc) (ds : List Doc), getResult (d :: ds) = some (mapDqlResultToSql d)) := by
  refine ⟨fun q h => ?_, fun q h => ?_, fun sql params r h => ?_, rfl, fun d ds => rfl⟩
  · rw [appendLimitOne, if_pos h]
  · rw [appendLimitOne, if_neg (by simp [h])]
  · obtain ⟨q0, a0⟩ := r
    simp only [getQueryL, h]
    rfl

/-- Claim C10, witnessed at the repository's `get() with no results`
test: the translated lookup gains ` LIMIT 1` and an empty result set
yields `undefined`. -/
theorem claim_C10_witness :
    sqlToDqlL "SELECT * FROM users WHERE id = ?".data [.vStr "nonexistent"] =
      .ok ⟨"SELECT * FROM users WHERE _id = :arg1".data,
        some [("arg1".data, .prim (.vStr "nonexistent"))]⟩ ∧
    getQueryL "SELECT * FROM users WHERE id = ?".data [.vStr "nonexistent"] =
      .ok ⟨appendLimitOne "SELECT * FROM users WHERE _id = :arg1".data,
        some [("arg1".data, .prim (.vStr "nonexistent"))]⟩ ∧
    appendLimitOne "SELECT * FROM users WHERE _id = :arg1".data =
      "SELECT * FROM users WHERE _id = :arg1".data ++ " LIMIT 1".data ∧
    containsSub "LIMIT".data
      (upper "SELECT * FROM users WHERE _id = :arg1".data) = false ∧
    getResult [] = none :=
  ⟨rfl,
   claim_C10.2.2.1 "SELECT * FROM users WHERE id = ?".data [.vStr "nonexistent"] _ rfl,
   claim_C10.2.1 _ (by decide),
   by decide, rfl⟩

/-- Claim C1, amended to the statements translated by the shared
placeholder rewrite (SELECT/UPDATE/DELETE; an INSERT folds its
placeholders into the `:doc` payload instead): with `n` occurrences of
`?` and `n` parameters, the query replaces the `k`-th `?` by `:argk`
(the text is the interleaving of the `?`-separated segments with
`:arg1..argn`) and the argument map is exactly `arg1..argn` with `argk`
bound to `parameters[k-1]`; it is absent when `n = 0`. -/
theorem claim_C1 (s : Chars) (params : List Value)
    (hk : classifyL s = .select ∨ classifyL s = .update ∨ classifyL s = .delete)
    (hlen : params.length = countQ s) :
    ∃ r, sqlToDqlL s params = .ok r ∧
      r.query = joinNumbered (segsQ (rewriteId (stripQuotes s))) 1 ∧
      (segsQ (rewriteId (stripQuotes s))).length = countQ s + 1 ∧
      (countQ s = 0 → r.args = none) ∧
      (countQ s ≠ 0 → ∃ m, r.args = some m ∧ m.length = countQ s ∧
        ∀ i, i < countQ s →
          ∃ v, params.get? i = some v ∧
            m.get? i = some (mkArgName (i + 1), ArgValue.prim v)) := by
  have hgen : sqlToDqlL s params = .ok (translateGeneric s params) := by
    rcases hk with h | h | h <;> simp only [sqlToDqlL, h]
  refine ⟨_, hgen, ?_, ?_, ?_, ?_⟩
  · show (translateGeneric s params).query = _
    simp only [translateGeneric]
    rw [replaceQ, replaceQAux_eq_joinNumbered]
  · rw [length_segsQ, countQ_rewriteId, countQ_stripQuotes]
  · intro h0
    simp [translateGeneric, h0]
  · intro hne
    refine ⟨argEntries params (countQ s), by simp [translateGeneric, hne], ?_, ?_⟩
    · simp [argEntries]
    · intro i hi
      have hip : i < params.length := by omega
      refine ⟨params.get ⟨i, hip⟩, List.get?_eq_get hip, ?_⟩
      have hgd : params.getD i Value.vNull = params.get ⟨i, hip⟩ := by
        rw [List.getD_eq_getD_get?, List.get?_eq_get hip]
        rfl
      simp only [argEntries]
      rw [List.get?_map, List.get?_range hi, Option.map_some', hgd]

/-- Claim C1's counterexample: on an INSERT — a SQL text with two `?`
occurrences and two parameters — the argument map is the single `doc`
payload entry, not `arg1`/`arg2`. -/
theorem claim_C1_counterexample :
    countQ "INSERT INTO users (name, age) VALUES (?, ?)".data = 2 ∧
    sqlToDqlL "INSERT INTO users (name, age) VALUES (?, ?)".data
        [.vStr "Alice", .vInt 30] =
      .ok ⟨"INSERT INTO users DOCUMENTS (:doc)".data,
        some [("doc".data,
          ArgValue.doc [("name".data, .vStr "Alice"), ("age".data, .vInt 30)])]⟩ ∧
    [("doc".data,
        ArgValue.doc [("name".data, Value.vStr "Alice"), ("age".data, Value.vInt 30)])] ≠
      [(mkArgName 1, ArgValue.prim (Value.vStr "Alice")),
       (mkArgName 2, ArgValue.prim (Value.vInt 30))] :=
  ⟨by decide, rfl, by decide⟩

/-- Claim C1, witnessed at the repository's
`SELECT * FROM users WHERE name = ? AND age > ?` test input. -/
theorem claim_C1_witness :
    (classifyL "SELECT * FROM users WHERE name = ? AND age > ?".data = .select ∨
      classifyL "SELECT * FROM users WHERE name = ? AND age > ?".data = .update ∨
      classifyL "SELECT * FROM users WHERE name = ? AND age > ?".data = .delete) ∧
    ([Value.vStr "John", Value.vInt 25].length =
      countQ "SELECT * FROM users WHERE name = ? AND age > ?".data) ∧
    (∃ r, sqlToDqlL "SELECT * FROM users WHERE name = ? AND age > ?".data
        [.vStr "John", .vInt 25] = .ok r ∧
      r.query = joinNumbered (segsQ (rewriteId (stripQuotes
        "SELECT * FROM users WHERE name = ? AND age > ?".data))) 1 ∧
      (segsQ (rewriteId (stripQuotes
        "SELECT * FROM users WHERE name = ? AND age > ?".data))).length =
        countQ "SELECT * FROM users WHERE name = ? AND age > ?".data + 1 ∧
      (countQ "SELECT * FROM users WHERE name = ? AND age > ?".data = 0 →
        r.args = none) ∧
      (countQ "SELECT * FROM users WHERE name = ? AND age > ?".data ≠ 0 →
        ∃ m, r.args = some m ∧
          m.length = countQ "SELECT * FROM users WHERE name = ? AND age > ?".data ∧
          ∀ i, i < countQ "SELECT * FROM users WHERE name = ? AND age > ?".data →
            ∃ v, [Value.vStr "John", Value.vInt 25].get? i = some v ∧
              m.get? i = some (mkArgName (i + 1), ArgValue.prim v))) :=
  ⟨Or.inl (by decide), by decide,
   claim_C1 "SELECT * FROM users WHERE name = ? AND age > ?".data
     [.vStr "John", .vInt 25] (Or.inl (by decide)) (by decide)⟩

/-- Claim C2: `INSERT INTO <table> (<cols>) VALUES (?, ..., ?)` with
matching parameters becomes `INSERT INTO <table> DOCUMENTS (:doc)` whose
`doc` zips the columns (a column `id` renamed `_id`) with the
parameters; INSERT text whose column or VALUES list cannot be matched —
such as `INSERT INTO users` — raises
`Unable to parse INSERT statement`. -/
theorem claim_C2 :
    (∀ (table : Chars) (cols : List Chars) (params : List Value),
      IsIdent table → IsIdentList cols → params.length = cols.length →
      sqlToDqlL (mkInsertText table cols) params =
        .ok ⟨insertQuery table,
          some [("doc".data, ArgValue.doc ((cols.map renameIdCol).zip params))]⟩) ∧
    (∀ (s : Chars) (params : List Value), classifyL s = .insert →
      parseInsert (stripQuotes s) = none →
      sqlToDqlL s params = .error (.malformedStatement "Unable to parse INSERT statement")) ∧
    sqlToDqlL "INSERT INTO users".data [] =
      .error (.malformedStatement "Unable to parse INSERT statement") := by
  refine ⟨fun table cols params ht hc _ => sqlToDqlL_mkInsertText ht hc params,
    fun s params hcl hp => ?_, rfl⟩
  rw [sqlToDqlL_insert params hcl, translateInsert, hp]

/-- Claim C2, witnessed at `INSERT INTO users (name, age) VALUES (?, ?)`
with parameters `Alice` and `30`. -/
theorem claim_C2_witness :
    IsIdent "users".data ∧ IsIdentList ["name".data, "age".data] ∧
    ([Value.vStr "Alice", Value.vInt 30].length =
      (["name".data, "age".data] : List Chars).length) ∧
    sqlToDqlL (mkInsertText "users".data ["name".data, "age".data])
        [.vStr "Alice", .vInt 30] =
      .ok ⟨insertQuery "users".data,
        some [("doc".data, ArgValue.doc
          ((["name".data, "age".data].map renameIdCol).zip
            [Value.vStr "Alice", Value.vInt 30]))]⟩ :=
  ⟨by decide, ⟨by decide, by decide⟩, by decide,
   claim_C2.1 "users".data ["name".data, "age".data] [.vStr "Alice", .vInt 30]
     (by decide) ⟨by decide, by decide⟩ (by decide)⟩

/-- Claim C5, amended: translate-then-map restores the original column
names for every column list containing `id` in which no column is
literally named `_id` (the reverse map renames every `_id` key to `id`,
so a pre-existing `_id` column cannot round-trip); the concrete
`INSERT INTO t (id, name) VALUES (?, ?)` instance behaves exactly as the
claim states. -/
theorem claim_C5 :
    (∀ (table : Chars) (cols : List Chars) (params : List Value),
      IsIdent table → IsIdentList cols → params.length = cols.length →
      "id".data ∈ cols → "_id".data ∉ cols →
      sqlToDqlL (mkInsertText table cols) params =
        .ok ⟨insertQuery table,
          some [("doc".data, ArgValue.doc ((cols.map renameIdCol).zip params))]⟩ ∧
      mapDqlResultToSql ((cols.map renameIdCol).zip params) = cols.zip params) ∧
    (sqlToDqlL "INSERT INTO t (id, name) VALUES (?, ?)".data [.vStr "x", .vStr "y"] =
      .ok ⟨"INSERT INTO t DOCUMENTS (:doc)".data,
        some [("doc".data,
          ArgValue.doc [("_id".data, .vStr "x"), ("name".data, .vStr "y")])]⟩) ∧
    mapDqlResultToSql [("_id".data, .vStr "x"), ("name".data, .vStr "y")] =
      [("id".data, .vStr "x"), ("name".data, .vStr "y")] := by
  refine ⟨fun table cols params ht hc _ _ hnid =>
    ⟨sqlToDqlL_mkInsertText ht hc params, mapBack_zip cols params hnid⟩, rfl, rfl⟩

/-- Claim C5's counterexample: a column list containing `id` and a column
literally named `_id` does not round-trip — both columns come back as
`id`. -/
theorem claim_C5_counterexample :
    sqlToDqlL "INSERT INTO t (id, _id) VALUES (?, ?)".data [.vStr "x", .vStr "y"] =
      .ok ⟨"INSERT INTO t DOCUMENTS (:doc)".data,
        some [("doc".data,
          ArgValue.doc [("_id".data, .vStr "x"), ("_id".data, .vStr "y")])]⟩ ∧
    mapDqlResultToSql [("_id".data, .vStr "x"), ("_id".data, .vStr "y")] ≠
      [("id".data, Value.vStr "x"), ("_id".data, Value.vStr "y")] :=
  ⟨rfl, by decide⟩

/-- Claim C5, witnessed at the claim's own column list `[id, name]` with
parameters `x` and `y`. -/
theorem claim_C5_witness :
    IsIdent "t".data ∧ IsIdentList ["id".data, "name".data] ∧
    ([Value.vStr "x", Value.vStr "y"].length =
      (["id".data, "name".data] : List Chars).length) ∧
    "id".data ∈ (["id".data, "name".data] : List Chars) ∧
    "_id".data ∉ (["id".data, "name".data] : List Chars) ∧
    (sqlToDqlL (mkInsertText "t".data ["id".data, "name".data])
        [.vStr "x", .vStr "y"] =
      .ok ⟨insertQuery "t".data,
        some [("doc".data, ArgValue.doc
          (((["id".data, "name".data] : List Chars).map renameIdCol).zip
            [Value.vStr "x", Value.vStr "y"]))]⟩ ∧
     mapDqlResultToSql
        (((["id".data, "name".data] : List Chars).map renameIdCol).zip
          [Value.vStr "x", Value.vStr "y"]) =
        (["id".data, "name".data] : List Chars).zip [Value.vStr "x", Value.vStr "y"]) :=
  ⟨by decide, by decide, by decide, by decide, by decide,
   claim_C5.1 "t".data ["id".data, "name".data] [.vStr "x", .vStr "y"]
     (by decide) (by decide) (by decide) (by decide) (by decide)⟩

/-- Claim C4: for a result document with aggregate keys and an ordered
requested-field list, the mapper copies plain (GROUP BY passthrough)
fields by name and binds every requested field not plainly present to
the document value at `($k)` where `k` is the field's 1-based position
among the requested fields. -/
theorem claim_C4 (fields : List Chars) (doc : Doc) (hnd : fields.Nodup) :
    (∀ (f : Chars) (v : Value), (docPlain doc).lookup f = some v →
      (mapAggregateRow fields doc).lookup f = some v) ∧
    (∀ (i : Nat) (hi : i < fields.length),
      (docPlain doc).lookup (fields.get ⟨i, hi⟩) = none →
        (mapAggregateRow fields doc).lookup (fields.get ⟨i, hi⟩) =
          doc.lookup (aggKey (i + 1))) := by
  constructor
  · intro f v hv
    exact mapAggRowGo_lookup_some doc fields 1 (docPlain doc) hv
  · intro i hi hnone
    rw [show i + 1 = 1 + i from by omega]
    exact mapAggRowGo_lookup_at doc fields 1 (docPlain doc) hnd i hi hnone

/-- Claim C4, witnessed at the claim's example: document
`{ category: A, ($3): 5 }` with requested fields
`[category, dept, count]` maps `count` to the value at `($3)` and passes
`category` through; the full mapped row is `{ category: A, count: 5 }`. -/
theorem claim_C4_witness :
    (["category".data, "dept".data, "count".data] : List Chars).Nodup ∧
    (docPlain [("category".data, Value.vStr "A"), ("($3)".data, Value.vInt 5)]).lookup
      "count".data = none ∧
    (mapAggregateRow ["category".data, "dept".data, "count".data]
        [("category".data, .vStr "A"), ("($3)".data, .vInt 5)]).lookup "count".data =
      ([("category".data, Value.vStr "A"), ("($3)".data, Value.vInt 5)] : Doc).lookup
        (aggKey 3) ∧
    (mapAggregateRow ["category".data, "dept".data, "count".data]
        [("category".data, .vStr "A"), ("($3)".data, .vInt 5)]).lookup
      "category".data = some (Value.vStr "A") ∧
    mapAggregateRow ["category".data, "dept".data, "count".data]
        [("category".data, .vStr "A"), ("($3)".data, .vInt 5)] =
      [("category".data, .vStr "A"), ("count".data, .vInt 5)] :=
  ⟨by decide, by decide,
   (claim_C4 ["category".data, "dept".data, "count".data]
      [("category".data, .vStr "A"), ("($3)".data, .vInt 5)] (by decide)).2
     2 (by decide) (by decide),
   (claim_C4 ["category".data, "dept".data, "count".data]
      [("category".data, .vStr "A"), ("($3)".data, .vInt 5)] (by decide)).1
     "category".data (Value.vStr "A") (by decide),
   by decide⟩

/-- Claim C3: the `id` → `_id` rewrite fires on every occurrence of the
exact identifier run `id` at a boundary (which covers bare `id`,
qualified `t.id` — the dot ends the preceding run — and quoted `"id"`
after quote stripping), never fires on a longer identifier containing
`id`, never fires on `id` used as a function name `id(...)`, and the
full translation pipeline behaves accordingly on concrete SELECT
projections, WHERE, GROUP BY and ORDER BY clauses, leaving
`SELECT MID(name, 1, 3) FROM users` exactly unchanged. -/
theorem claim_C3 :
    (∀ (pre z : Chars), pre ≠ [] →
      (∀ d, pre.getLast? = some d → isIdentChar d = false) →
      headBoundary z →
      rewriteId (pre ++ ("id".data ++ z)) =
        rewriteId pre ++ ("_id".data ++ rewriteId z)) ∧
    (∀ (pre tok z : Chars), pre ≠ [] →
      (∀ d, pre.getLast? = some d → isIdentChar d = false) →
      tok ≠ [] → (∀ c ∈ tok, isIdentChar c = true) → tok ≠ "id".data →
      (∀ c, z.head? = some c → isIdentChar c = false) →
      rewriteId (pre ++ (tok ++ z)) = rewriteId pre ++ (tok ++ rewriteId z)) ∧
    (∀ z : Chars,
      rewriteId ("id(".data ++ z) = "id(".data ++ rewriteId z) ∧
    sqlToDqlL "SELECT MID(name, 1, 3) FROM users".data [] =
      .ok ⟨"SELECT MID(name, 1, 3) FROM users".data, none⟩ ∧
    sqlToDqlL "SELECT id, name FROM users WHERE id = ?".data [.vInt 1] =
      .ok ⟨"SELECT _id, name FROM users WHERE _id = :arg1".data,
        some [("arg1".data, .prim (.vInt 1))]⟩ ∧
    sqlToDqlL "SELECT t.id FROM users t GROUP BY t.id ORDER BY t.id".data [] =
      .ok ⟨"SELECT t._id FROM users t GROUP BY t._id ORDER BY t._id".data, none⟩ ∧
    sqlToDqlL "SELECT * FROM users WHERE \"id\" = ?".data [.vStr "a"] =
      .ok ⟨"SELECT * FROM users WHERE _id = :arg1".data,
        some [("arg1".data, .prim (.vStr "a"))]⟩ := by
  refine ⟨?_, ?_, ?_, rfl, rfl, rfl, rfl⟩
  · intro pre z hne hlast hz
    simp only [rewriteId]
    rw [rewriteIdGo_append_boundary pre ("id".data ++ z) false hne hlast,
      rewriteId_fires z hz]
  · intro pre tok z hne hlast htok hid htne hz
    simp only [rewriteId]
    rw [rewriteIdGo_append_boundary pre (tok ++ z) false hne hlast,
      rewriteId_skips_other_ident tok z htok hid htne hz]
  · intro z
    simp only [rewriteId]
    exact rewriteId_skips_function_name z

/-- Claim C3, witnessed on a WHERE fragment (the rewrite fires on a bare
`id` there) and on the longer identifier `ident` (the rewrite skips
it). -/
theorem claim_C3_witness :
    rewriteId ("WHERE ".data ++ ("id".data ++ " = 1".data)) =
      rewriteId "WHERE ".data ++ ("_id".data ++ rewriteId " = 1".data) ∧
    rewriteId ("WHERE ".data ++ ("ident".data ++ " = 1".data)) =
      rewriteId "WHERE ".data ++ ("ident".data ++ rewriteId " = 1".data) := by
  constructor
  · refine claim_C3.1 "WHERE ".data " = 1".data (by decide) ?_ ?_
    · intro d hd
      rw [show ("WHERE ".data : Chars).getLast? = some ' ' from rfl] at hd
      injection hd with h
      subst h
      decide
    · intro c hc
      rw [show (" = 1".data : Chars).head? = some ' ' from rfl] at hc
      injection hc with h
      subst h
      exact ⟨by decide, by decide⟩
  · refine claim_C3.2.1 "WHERE ".data "ident".data " = 1".data (by decide) ?_
      (by decide) (by decide) (by decide) ?_
    · intro d hd
      rw [show ("WHERE ".data : Chars).getLast? = some ' ' from rfl] at hd
      injection hd with h
      subst h
      decide
    · intro c hc
      rw [show (" = 1".data : Chars).head? = some ' ' from rfl] at hc
      injection hc with h
      subst h
      decide

/-- Claim C6: every statement classified `CREATE UNIQUE INDEX` raises an
unsupported-operation error whose message mentions `UNIQUE INDEX`; every
`CREATE INDEX` over two or more columns raises mentioning
`Composite INDEX`; every `CREATE INDEX` with a trailing `WHERE` clause
raises mentioning `Partial INDEX`; every statement classified
`DROP INDEX` (covering `DROP INDEX [IF EXISTS]`) raises mentioning
`DROP INDEX`; and a `CREATE INDEX` whose column expression contains an
opening parenthesis (a function call) raises an error mentioning
`Unable to parse CREATE INDEX`. -/
theorem claim_C6 :
    (∀ (s : Chars) (params : List Value), classifyL s = .createUniqueIndex →
      sqlToDqlL s params =
        .error (.unsupportedOperation "Unsupported SQL operation: UNIQUE INDEX")) ∧
    (∀ (name tbl : Chars) (cols : List Chars) (suffix : Chars) (params : List Value),
      IsIdent name → ¬(upper name = "IF".data) → IsIdent tbl → IsIdentList cols →
      2 ≤ cols.length → (∀ c ∈ suffix, c ≠ '"') →
      sqlToDqlL (ciText name tbl (commaSep cols) suffix) params =
        .error (.unsupportedOperation "Unsupported SQL operation: Composite INDEX")) ∧
    (∀ (name tbl inner rest : Chars) (params : List Value),
      IsIdent name → ¬(upper name = "IF".data) → IsIdent tbl →
      (∀ c ∈ inner, isIdentDotChar c = true) → (∀ c ∈ rest, c ≠ '"') →
      sqlToDqlL (ciText name tbl inner (' ' :: ("WHERE".data ++ ' ' :: rest))) params =
        .error (.unsupportedOperation "Unsupported SQL operation: Partial INDEX")) ∧
    (∀ (s : Chars) (params : List Value), classifyL s = .dropIndex →
      sqlToDqlL s params =
        .error (.unsupportedOperation "Unsupported SQL operation: DROP INDEX")) ∧
    (∀ (name tbl inner suffix : Chars) (params : List Value),
      IsIdent name → ¬(upper name = "IF".data) → IsIdent tbl →
      (∀ c ∈ inner, c ≠ ')') → (∀ c ∈ inner, c ≠ '"') → ¬(',' ∈ inner) →
      '(' ∈ inner → ¬(upper (takeTok suffix) = "WHERE".data) →
      (∀ c ∈ suffix, c ≠ '"') →
      sqlToDqlL (ciText name tbl inner suffix) params =
        .error (.malformedStatement "Unable to parse CREATE INDEX")) ∧
    List.IsInfix "UNIQUE INDEX".data "Unsupported SQL operation: UNIQUE INDEX".data ∧
    List.IsInfix "Composite INDEX".data "Unsupported SQL operation: Composite INDEX".data ∧
    List.IsInfix "Partial INDEX".data "Unsupported SQL operation: Partial INDEX".data ∧
    List.IsInfix "DROP INDEX".data "Unsupported SQL operation: DROP INDEX".data ∧
    List.IsInfix "Unable to parse CREATE INDEX".data "Unable to parse CREATE INDEX".data := by
  refine ⟨fun s params h => sqlToDqlL_createUnique params h,
    ?_, ?_, fun s params h => sqlToDqlL_dropIndex params h, ?_,
    ⟨"Unsupported SQL operation: ".data, [], by decide⟩,
    ⟨"Unsupported SQL operation: ".data, [], by decide⟩,
    ⟨"Unsupported SQL operation: ".data, [], by decide⟩,
    ⟨"Unsupported SQL operation: ".data, [], by decide⟩,
    ⟨[], [], by decide⟩⟩
  · intro name tbl cols suffix params hname hnif htbl hcols hlen hsq
    have hnq : ∀ c ∈ name, c ≠ '"' := fun c hc => ne_of_ident (hname.2 c hc) (by decide)
    have htq : ∀ c ∈ tbl, c ≠ '"' := fun c hc => ne_of_ident (htbl.2 c hc) (by decide)
    have hiq : ∀ c ∈ commaSep cols, c ≠ '"' := by
      intro c hc
      rcases mem_commaSep hc with ⟨x, hx, hcx⟩ | h | h
      · exact ne_of_ident ((hcols.2 x hx).2 c hcx) (by decide)
      · subst h; decide
      · subst h; decide
    have hparen : ∀ c ∈ commaSep cols, c ≠ ')' := by
      intro c hc
      rcases mem_commaSep hc with ⟨x, hx, hcx⟩ | h | h
      · exact ne_of_ident ((hcols.2 x hx).2 c hcx) (by decide)
      · subst h; decide
      · subst h; decide
    rw [sqlToDqlL_createIndex params (classifyL_ciText name tbl (commaSep cols) suffix),
      stripQuotes_ciText hnq htq hiq hsq,
      translateCreateIndex_ciText hname hnif htbl hparen]
    simp only [ciAfterParen]
    rw [if_pos (comma_mem_commaSep hlen)]
  · intro name tbl inner rest params hname hnif htbl hident hrest
    have hnq : ∀ c ∈ name, c ≠ '"' := fun c hc => ne_of_ident (hname.2 c hc) (by decide)
    have htq : ∀ c ∈ tbl, c ≠ '"' := fun c hc => ne_of_ident (htbl.2 c hc) (by decide)
    have hiq : ∀ c ∈ inner, c ≠ '"' := by
      intro c hc hq
      subst hq
      exact absurd (hident _ hc) (by decide)
    have hparen : ∀ c ∈ inner, c ≠ ')' := by
      intro c hc hq
      subst hq
      exact absurd (hident _ hc) (by decide)
    have hsuffq : ∀ c ∈ ' ' :: ("WHERE".data ++ ' ' :: rest), c ≠ '"' := by
      intro c hc
      rcases List.mem_cons.mp hc with rfl | hc2
      · decide
      rcases List.mem_append.mp hc2 with h | h
      · fin_cases h <;> decide
      · rcases List.mem_cons.mp h with rfl | h3
        · decide
        · exact hrest c h3
    rw [sqlToDqlL_createIndex params
        (classifyL_ciText name tbl inner (' ' :: ("WHERE".data ++ ' ' :: rest))),
      stripQuotes_ciText hnq htq hiq hsuffq,
      translateCreateIndex_ciText hname hnif htbl hparen]
    have hnc : ¬(',' ∈ inner) := fun h => absurd (hident ',' h) (by decide)
    have hwh : upper (takeTok (' ' :: ("WHERE".data ++ ' ' :: rest))) = "WHERE".data := by
      rw [takeTok_cons_ws (by decide), (tok_split_space _ (by decide) (by decide)).1]
      decide
    simp only [ciAfterParen]
    rw [if_neg hnc, if_pos hwh]
  · intro name tbl inner suffix params hname hnif htbl hparen hiq hnc hopen hwh hsq
    have hnq : ∀ c ∈ name, c ≠ '"' := fun c hc => ne_of_ident (hname.2 c hc) (by decide)
    have htq : ∀ c ∈ tbl, c ≠ '"' := fun c hc => ne_of_ident (htbl.2 c hc) (by decide)
    rw [sqlToDqlL_createIndex params (classifyL_ciText name tbl inner suffix),
      stripQuotes_ciText hnq htq hiq hsq,
      translateCreateIndex_ciText hname hnif htbl hparen]
    have hall : ¬(trimWs inner ≠ [] ∧ (trimWs inner).all isIdentDotChar ∧
        dropWs suffix = []) := by
      rintro ⟨-, h2, -⟩
      have hmem : '(' ∈ trimWs inner := mem_trimWs_of_not_ws hopen (by decide)
      exact absurd (List.all_eq_true.mp h2 '(' hmem) (by decide)
    simp only [ciAfterParen]
    rw [if_neg hnc, if_neg hwh, if_neg hall]
    rfl

/-- Claim C6, witnessed at the repository's own test inputs: the unique,
composite, partial, drop and functional index statements each produce
the stated error. -/
theorem claim_C6_witness :
    classifyL "CREATE UNIQUE INDEX idx_unique ON users (email)".data =
      .createUniqueIndex ∧
    sqlToDqlL "CREATE UNIQUE INDEX idx_unique ON users (email)".data [] =
      .error (.unsupportedOperation "Unsupported SQL operation: UNIQUE INDEX") ∧
    ciText "idx_composite".data "users".data
        (commaSep ["name".data, "age".data]) [] =
      "CREATE INDEX idx_composite ON users (name, age)".data ∧
    sqlToDqlL (ciText "idx_composite".data "users".data
        (commaSep ["name".data, "age".data]) []) [] =
      .error (.unsupportedOperation "Unsupported SQL operation: Composite INDEX") ∧
    ciText "idx_partial".data "users".data "email".data
        (' ' :: ("WHERE".data ++ ' ' :: "age > 18".data)) =
      "CREATE INDEX idx_partial ON users (email) WHERE age > 18".data ∧
    sqlToDqlL (ciText "idx_partial".data "users".data "email".data
        (' ' :: ("WHERE".data ++ ' ' :: "age > 18".data))) [] =
      .error (.unsupportedOperation "Unsupported SQL operation: Partial INDEX") ∧
    classifyL "DROP INDEX idx_name".data = .dropIndex ∧
    sqlToDqlL "DROP INDEX idx_name".data [] =
      .error (.unsupportedOperation "Unsupported SQL operation: DROP INDEX") ∧
    ciText "idx_lower".data "users".data "LOWER(name".data ")".data =
      "CREATE INDEX idx_lower ON users (LOWER(name))".data ∧
    sqlToDqlL (ciText "idx_lower".data "users".data "LOWER(name".data ")".data) [] =
      .error (.malformedStatement "Unable to parse CREATE INDEX") :=
  ⟨by decide,
   claim_C6.1 "CREATE UNIQUE INDEX idx_unique ON users (email)".data [] (by decide),
   by decide,
   claim_C6.2.1 "idx_composite".data "users".data ["name".data, "age".data] [] []
     (by decide) (by decide) (by decide) (by decide) (by decide) (by decide),
   by decide,
   claim_C6.2.2.1 "idx_partial".data "users".data "email".data "age > 18".data []
     (by decide) (by decide) (by decide) (by decide) (by decide),
   by decide,
   claim_C6.2.2.2.1 "DROP INDEX idx_name".data [] (by decide),
   by decide,
   claim_C6.2.2.2.2.1 "idx_lower".data "users".data "LOWER(name".data ")".data []
     (by decide) (by decide) (by decide) (by decide) (by decide) (by decide)
     (by decide) (by decide) (by decide)⟩

end DittoDql














